import Mathlib

/-!
# Verification of the design-to-code pipeline specification

This file gives a shallow embedding, in Lean 4, of the core algorithms of the
design-to-code pipeline (Figma parser, design analyzer, EDS mapper, LLM
orchestrator, code validator) and proves or refutes the behavioural claims
made about them.

Numbers that the TypeScript source manipulates as floating-point values are
modelled as exact rationals (`ℚ`); all source arithmetic in scope
(sums of the score weights 0.5/0.3/0.2, the similarity formula
`1 - distance/maxLength`, threshold comparisons) is exact on the inputs the
claims quantify over, so no rounding behaviour is lost by this choice.

Sections:
1. Name similarity (`edsMapperAgent.ts`): normalization, the Levenshtein DP
   table, `calculateNameSimilarity`, and the pass-2 fallback mapping.
2. Figma parser (`figmaParserAgent.ts`): `parseJson`, `flattenNodes`,
   `extractStyles`.
3. Design analyzer (`designAnalyzerAgent.ts`): `detectButtonPatterns`,
   `validateTypography`.
4. Code validator (`codeValidatorAgent.ts`): score combination and the
   production-ready verdict.
5. LLM orchestrator (`llmOrchestratorAgent.ts`): `generateCode` error
   recovery.
-/

/-! ## Section 1: name similarity (eds-mapper)

Source: `src/lib/agents/eds-mapper/edsMapperAgent.ts`,
`calculateNameSimilarity` (lines 565-591), `levenshteinDistance`
(lines 599-628), `mapComponentsBasedOnNameAndProperties` (lines 502-532).
-/

/-- Character kept by `name.toLowerCase().replace(/[^a-z0-9]/g, '')`:
a lowercase ASCII letter or a digit. -/
def isKeptChar (c : Char) : Bool :=
  (('a' ≤ c && c ≤ 'z') || ('0' ≤ c && c ≤ '9'))

/-- Normalization performed at the top of `calculateNameSimilarity`:
lowercase, then strip every character that is not a lowercase letter or
digit. -/
def normalizeName (s : String) : List Char :=
  (s.data.map Char.toLower).filter isKeptChar

/-- Test that `pat` occurs at the front of `l` (helper for `strIncludes`). -/
def leadsWith : List Char → List Char → Bool
  | _, [] => true
  | [], _ :: _ => false
  | c :: cs, d :: ds => c = d && leadsWith cs ds

/-- JavaScript `String.prototype.includes`: `pat` occurs contiguously
somewhere in `l`, i.e. it leads `l` itself or some tail of `l`. -/
def strIncludes : List Char → List Char → Bool
  | [], pat => leadsWith [] pat
  | c :: t, pat => leadsWith (c :: t) pat || strIncludes t pat

/-- Row `i + 1` of the source's DP matrix `d`, computed from row `i`
(`prev`).  `levNext s1 s2 i prev j` is `d[i+1][j]` of
`levenshteinDistance`: `d[i+1][0] = i+1` and
`d[i+1][j+1] = min(d[i][j+1]+1, d[i+1][j]+1, d[i][j]+cost)` with
`cost = (s1[i] === s2[j] ? 0 : 1)`. -/
def levNext (s1 s2 : List Char) (i : Nat) (prev : Nat → Nat) : Nat → Nat
  | 0 => i + 1
  | j + 1 =>
      min (prev (j + 1) + 1)
        (min (levNext s1 s2 i prev j + 1)
          (prev j + (if s1[i]? = s2[j]? then 0 else 1)))

/-- The source's DP matrix: `levTable s1 s2 i j` is `d[i][j]`, with
`d[i][0] = i` and `d[0][j] = j`. -/
def levTable (s1 s2 : List Char) : Nat → Nat → Nat
  | 0 => fun j => j
  | i + 1 => levNext s1 s2 i (levTable s1 s2 i)

theorem levTable_zero (s1 s2 : List Char) (j : Nat) : levTable s1 s2 0 j = j := rfl

theorem levTable_succ_zero (s1 s2 : List Char) (i : Nat) :
    levTable s1 s2 (i + 1) 0 = i + 1 := rfl

/-- The filling step of the source's double loop, as an equation on the
table. -/
theorem levTable_succ_succ (s1 s2 : List Char) (i j : Nat) :
    levTable s1 s2 (i + 1) (j + 1) =
      min (levTable s1 s2 i (j + 1) + 1)
        (min (levTable s1 s2 (i + 1) j + 1)
          (levTable s1 s2 i j + (if s1[i]? = s2[j]? then 0 else 1))) := rfl

/-- Source `levenshteinDistance`: the bottom-right entry `d[m][n]` of the
DP matrix. -/
def levenshteinDistance (s1 s2 : List Char) : Nat :=
  levTable s1 s2 s1.length s2.length

/-- Source `calculateNameSimilarity`, over exact rationals: 0 if either
normalized name is empty, 1 if they are equal, 0.9 if one contains the
other, else `1 - distance/maxLength`. -/
def calculateNameSimilarity (name1 name2 : String) : ℚ :=
  let clean1 := normalizeName name1
  let clean2 := normalizeName name2
  if clean1 = [] ∨ clean2 = [] then 0
  else if clean1 = clean2 then 1
  else if strIncludes clean1 clean2 ∨ strIncludes clean2 clean1 then 9 / 10
  else 1 - (levenshteinDistance clean1 clean2 : ℚ) / ((max clean1.length clean2.length : ℕ) : ℚ)

/-- Initial confidence of a pass-2 (fallback) component mapping, from
`mapComponentsBasedOnNameAndProperties`: the highest name similarity
against the library (head of the descending sort), accepted only above
the 0.6 threshold; `none` when no mapping is created. -/
def pass2MappingConfidence (figmaName : String) (edsNames : List String) : Option ℚ :=
  match edsNames.map (fun e => calculateNameSimilarity figmaName e) with
  | [] => none
  | s :: rest =>
      let best := rest.foldl max s
      if 6 / 10 < best then some best else none

/-- Classic unit-cost edit distance (insert, delete, substitute each cost
1), written as the textbook recursion.  This is the definition the
specification appeals to; it is the reference point for the refinement
proof about the source's DP implementation. -/
def specLevenshtein : List Char → List Char → Nat
  | [], ys => ys.length
  | x :: xs, [] => (x :: xs).length
  | x :: xs, y :: ys =>
      min (specLevenshtein xs (y :: ys) + 1)
        (min (specLevenshtein (x :: xs) ys + 1)
          (specLevenshtein xs ys + (if x = y then 0 else 1)))
  termination_by xs ys => (xs.length, ys.length)

theorem specLevenshtein_nil_left (ys : List Char) : specLevenshtein [] ys = ys.length := by
  simp [specLevenshtein]

theorem specLevenshtein_nil_right (xs : List Char) : specLevenshtein xs [] = xs.length := by
  cases xs <;> simp [specLevenshtein]

theorem specLevenshtein_cons_cons (x : Char) (xs : List Char) (y : Char) (ys : List Char) :
    specLevenshtein (x :: xs) (y :: ys) =
      min (specLevenshtein xs (y :: ys) + 1)
        (min (specLevenshtein (x :: xs) ys + 1)
          (specLevenshtein xs ys + (if x = y then 0 else 1))) := by
  rw [specLevenshtein]

theorem min_push (a b c : Nat) : min a b + c = min (a + c) (b + c) := by omega

/-- Peeling the last character of both arguments satisfies the same
three-way recurrence as peeling the first.  This is the bridge between
the prefix-indexed DP matrix of the source and the textbook recursion. -/
theorem specLevenshtein_snoc_snoc (a b : Char) (xs ys : List Char) :
    specLevenshtein (xs ++ [a]) (ys ++ [b]) =
      min (specLevenshtein xs (ys ++ [b]) + 1)
        (min (specLevenshtein (xs ++ [a]) ys + 1)
          (specLevenshtein xs ys + (if a = b then 0 else 1))) := by
  induction xs generalizing ys with
  | nil =>
      induction ys with
      | nil =>
          have e1 := specLevenshtein_cons_cons a [] b []
          simp only [List.nil_append, specLevenshtein_nil_left, specLevenshtein_nil_right,
            List.length_nil, List.length_cons] at e1 ⊢
          omega
      | cons y ys ihy =>
          have e1 := specLevenshtein_cons_cons a [] y (ys ++ [b])
          have e2 := specLevenshtein_cons_cons a [] y ys
          simp only [List.nil_append, List.cons_append, specLevenshtein_nil_left,
            specLevenshtein_nil_right, List.length_nil, List.length_cons,
            List.length_append] at e1 e2 ihy ⊢
          omega
  | cons x xs ihx =>
      induction ys with
      | nil =>
          have hx := ihx []
          have e1 := specLevenshtein_cons_cons x (xs ++ [a]) b []
          have e2 := specLevenshtein_cons_cons x xs b []
          simp only [List.nil_append, List.cons_append, specLevenshtein_nil_left,
            specLevenshtein_nil_right, List.length_nil, List.length_cons,
            List.length_append] at hx e1 e2 ⊢
          omega
      | cons y ys ihy =>
          have h1 := ihx (y :: ys)
          have h2 := ihx ys
          have e1 := specLevenshtein_cons_cons x (xs ++ [a]) y (ys ++ [b])
          have e2 := specLevenshtein_cons_cons x xs y (ys ++ [b])
          have e3 := specLevenshtein_cons_cons x (xs ++ [a]) y ys
          have e4 := specLevenshtein_cons_cons x xs y ys
          simp only [List.nil_append, List.cons_append] at h1 h2 ihy e1 e2 e3 e4 ⊢
          rw [e1, h1, ihy, h2, e2, e3, e4]
          simp only [min_push]
          ac_nf

/-- The DP matrix entry `d[i][j]` is the classic edit distance between the
first `i` characters of `s1` and the first `j` characters of `s2`. -/
theorem levTable_eq_spec (s1 s2 : List Char) :
    ∀ i j, i ≤ s1.length → j ≤ s2.length →
      levTable s1 s2 i j = specLevenshtein (s1.take i) (s2.take j) := by
  intro i
  induction i with
  | zero =>
      intro j _ hj
      rw [levTable_zero, List.take_zero, specLevenshtein_nil_left, List.length_take]
      omega
  | succ i ihi =>
      intro j
      induction j with
      | zero =>
          intro hi _
          rw [levTable_succ_zero, List.take_zero, specLevenshtein_nil_right, List.length_take]
          omega
      | succ j ihj =>
          intro hi hj
          have hi' : i < s1.length := by omega
          have hj' : j < s2.length := by omega
          have t1 : s1.take (i + 1) = s1.take i ++ [s1[i]] := by
            rw [List.take_succ, List.getElem?_eq_getElem hi']
            rfl
          have t2 : s2.take (j + 1) = s2.take j ++ [s2[j]] := by
            rw [List.take_succ, List.getElem?_eq_getElem hj']
            rfl
          rw [levTable_succ_succ, t1, t2, specLevenshtein_snoc_snoc,
            ihi (j + 1) (by omega) hj, ihi j (by omega) (by omega),
            ihj (by omega) (by omega), t2, t1,
            List.getElem?_eq_getElem hi', List.getElem?_eq_getElem hj']
          simp only [Option.some.injEq]

/-- The source's DP `levenshteinDistance` computes exactly the classic
unit-cost edit distance. -/
theorem levenshteinDistance_eq_spec (s1 s2 : List Char) :
    levenshteinDistance s1 s2 = specLevenshtein s1 s2 := by
  have h := levTable_eq_spec s1 s2 s1.length s2.length (le_refl _) (le_refl _)
  rwa [List.take_length, List.take_length] at h

/-- Classic edit distance is symmetric in its two arguments. -/
theorem specLevenshtein_comm (xs ys : List Char) :
    specLevenshtein xs ys = specLevenshtein ys xs := by
  induction xs generalizing ys with
  | nil => rw [specLevenshtein_nil_left, specLevenshtein_nil_right]
  | cons x xs ihx =>
      induction ys with
      | nil => rw [specLevenshtein_nil_left, specLevenshtein_nil_right]
      | cons y ys ihy =>
          rw [specLevenshtein_cons_cons, specLevenshtein_cons_cons y ys x xs,
            ihx (y :: ys), ihx ys, ihy]
          have hc : (if x = y then (0 : Nat) else 1) = (if y = x then 0 else 1) := by
            by_cases h : x = y
            · subst h; rfl
            · rw [if_neg h, if_neg (fun h2 => h (Eq.symm h2))]
          rw [hc]
          generalize specLevenshtein (y :: ys) xs = A
          generalize specLevenshtein ys (x :: xs) = B
          generalize specLevenshtein ys xs = C
          omega

/-- Classic edit distance never exceeds the length of the longer input:
deleting the extra characters and substituting the rest is always an
available edit script. -/
theorem specLevenshtein_le_max (xs ys : List Char) :
    specLevenshtein xs ys ≤ max xs.length ys.length := by
  induction xs generalizing ys with
  | nil => rw [specLevenshtein_nil_left]; omega
  | cons x xs ihx =>
      cases ys with
      | nil => rw [specLevenshtein_nil_right]; simp
      | cons y ys =>
          rw [specLevenshtein_cons_cons]
          have h := ihx ys
          simp only [List.length_cons]
          by_cases hxy : x = y <;> simp only [hxy, if_true, if_false] <;> omega

/-- Characterization of `leadsWith`: `pat` leads `l` exactly when `l`
splits as `pat ++ t`. -/
theorem leadsWith_iff (l pat : List Char) :
    leadsWith l pat = true ↔ ∃ t, l = pat ++ t := by
  induction pat generalizing l with
  | nil => simp [leadsWith]
  | cons d ds ih =>
      cases l with
      | nil => simp [leadsWith]
      | cons c cs =>
          simp only [leadsWith, Bool.and_eq_true, decide_eq_true_eq, ih,
            List.cons_append, List.cons.injEq]
          constructor
          · rintro ⟨rfl, t, rfl⟩
            exact ⟨t, rfl, rfl⟩
          · rintro ⟨t, rfl, rfl⟩
            exact ⟨rfl, t, rfl⟩

/-- Characterization of `strIncludes` (JavaScript `includes`): `pat`
occurs contiguously in `l` exactly when `l` splits as `s ++ pat ++ t`. -/
theorem strIncludes_iff (l pat : List Char) :
    strIncludes l pat = true ↔ ∃ s t, l = s ++ pat ++ t := by
  induction l with
  | nil =>
      cases pat with
      | nil => simp [strIncludes, leadsWith]
      | cons d ds =>
          simp only [strIncludes, leadsWith, Bool.false_eq_true, false_iff]
          rintro ⟨s, t, h⟩
          cases s <;> simp at h
  | cons c cs ih =>
      simp only [strIncludes, Bool.or_eq_true, leadsWith_iff, ih]
      constructor
      · rintro (⟨t, h⟩ | ⟨s, t, h⟩)
        · exact ⟨[], t, by simpa using h⟩
        · exact ⟨c :: s, t, by simp [h]⟩
      · rintro ⟨s, t, h⟩
        cases s with
        | nil => exact Or.inl ⟨t, by simpa using h⟩
        | cons c2 s2 =>
            simp only [List.cons_append, List.cons.injEq] at h
            exact Or.inr ⟨s2, t, h.2⟩

/-- Containment of one character list in another, as the specification
words it ("one normalized string contains the other"). -/
def specContains (l pat : List Char) : Prop := ∃ s t, l = s ++ pat ++ t

instance (l pat : List Char) : Decidable (specContains l pat) :=
  decidable_of_iff (strIncludes l pat = true) (strIncludes_iff l pat)

/-- The name-similarity algorithm exactly as claimed (no guard for empty
normalized strings): 1 if the normalized strings are equal, 0.9 if one
contains the other, else `1 - levenshtein/maxLength` with the classic
edit distance. -/
def specNameSimilarityClaimed (name1 name2 : String) : ℚ :=
  let clean1 := normalizeName name1
  let clean2 := normalizeName name2
  if clean1 = clean2 then 1
  else if specContains clean1 clean2 ∨ specContains clean2 clean1 then 9 / 10
  else 1 - (specLevenshtein clean1 clean2 : ℚ) / ((max clean1.length clean2.length : ℕ) : ℚ)

/-- The claimed algorithm amended with the source's first rule: if either
normalized string is empty the similarity is 0. -/
def specNameSimilarityAmended (name1 name2 : String) : ℚ :=
  let clean1 := normalizeName name1
  let clean2 := normalizeName name2
  if clean1 = [] ∨ clean2 = [] then 0
  else if clean1 = clean2 then 1
  else if specContains clean1 clean2 ∨ specContains clean2 clean1 then 9 / 10
  else 1 - (specLevenshtein clean1 clean2 : ℚ) / ((max clean1.length clean2.length : ℕ) : ℚ)

/-- Bridging the two forms of the containment test: the source's
JavaScript `includes` disjunction and the specification's "one contains
the other". -/
theorem strIncludes_disj_iff (c1 c2 : List Char) :
    (strIncludes c1 c2 = true ∨ strIncludes c2 c1 = true) ↔
      (specContains c1 c2 ∨ specContains c2 c1) :=
  or_congr (strIncludes_iff c1 c2) (strIncludes_iff c2 c1)

/-- The similarity score is nonnegative and at most 1, whichever branch
of `calculateNameSimilarity` produces it. -/
theorem calculateNameSimilarity_bounds (a b : String) :
    0 ≤ calculateNameSimilarity a b ∧ calculateNameSimilarity a b ≤ 1 := by
  simp only [calculateNameSimilarity]
  by_cases h0 : normalizeName a = [] ∨ normalizeName b = []
  · rw [if_pos h0]; norm_num
  rw [if_neg h0]
  by_cases h1 : normalizeName a = normalizeName b
  · rw [if_pos h1]; norm_num
  rw [if_neg h1]
  by_cases h2 : strIncludes (normalizeName a) (normalizeName b) = true ∨
      strIncludes (normalizeName b) (normalizeName a) = true
  · rw [if_pos h2]; norm_num
  rw [if_neg h2]
  have hne : normalizeName a ≠ [] := fun h => h0 (Or.inl h)
  have hlen : 1 ≤ (normalizeName a).length := by
    cases hl : normalizeName a with
    | nil => exact absurd hl hne
    | cons c t => simp
  set m := max (normalizeName a).length (normalizeName b).length with hm
  have hmpos : 0 < (m : ℚ) := by
    have : 1 ≤ m := le_trans hlen (le_max_left _ _)
    exact_mod_cast lt_of_lt_of_le Nat.zero_lt_one this
  have hd : levenshteinDistance (normalizeName a) (normalizeName b) ≤ m := by
    rw [levenshteinDistance_eq_spec]
    exact specLevenshtein_le_max _ _
  constructor
  · have : (levenshteinDistance (normalizeName a) (normalizeName b) : ℚ) / m ≤ 1 := by
      rw [div_le_one hmpos]
      exact_mod_cast hd
    linarith
  · have : 0 ≤ (levenshteinDistance (normalizeName a) (normalizeName b) : ℚ) / m :=
      div_nonneg (by positivity) (le_of_lt hmpos)
    linarith

/-- Folding `max` over a list of similarity scores stays within the
bounds satisfied by the accumulator and every element. -/
theorem foldl_max_bounds (l : List ℚ) (acc : ℚ)
    (hacc : 0 ≤ acc ∧ acc ≤ 1) (hl : ∀ q ∈ l, 0 ≤ q ∧ q ≤ 1) :
    0 ≤ l.foldl max acc ∧ l.foldl max acc ≤ 1 := by
  induction l generalizing acc with
  | nil => exact hacc
  | cons q t ih =>
      simp only [List.foldl_cons]
      refine ih (max acc q) ⟨le_trans hacc.1 (le_max_left _ _), ?_⟩
        (fun r hr => hl r (List.mem_cons_of_mem _ hr))
      exact max_le hacc.2 (hl q (List.mem_cons_self _ _)).2

/-- C1 counterexample: on the input pair `("", "")` the mapper returns 0,
while the algorithm exactly as claimed (equality of the normalized
strings checked first, no empty-string rule) returns 1. -/
theorem C1_claimed_algorithm_fails :
    calculateNameSimilarity "" "" = 0 ∧
      specNameSimilarityClaimed "" "" = 1 ∧ (0 : ℚ) ≠ 1 := by
  refine ⟨rfl, ?_, by norm_num⟩
  rfl

/-- C1 (amended): for every pair of input strings, the mapper's
name-similarity function computes the claimed algorithm amended with the
source's leading rule "similarity is 0 when either normalized string is
empty": normalize (lowercase, strip non-alphanumerics); 0 if either
normalized string is empty; 1 if they are equal; 0.9 if one contains the
other; otherwise `1 - levenshtein/maxLength` with the classic unit-cost
edit distance. -/
theorem C1_similarity_matches_amended_spec (a b : String) :
    calculateNameSimilarity a b = specNameSimilarityAmended a b := by
  simp only [calculateNameSimilarity, specNameSimilarityAmended]
  by_cases h0 : normalizeName a = [] ∨ normalizeName b = []
  · rw [if_pos h0, if_pos h0]
  rw [if_neg h0, if_neg h0]
  by_cases h1 : normalizeName a = normalizeName b
  · rw [if_pos h1, if_pos h1]
  rw [if_neg h1, if_neg h1]
  by_cases h2 : strIncludes (normalizeName a) (normalizeName b) = true ∨
      strIncludes (normalizeName b) (normalizeName a) = true
  · rw [if_pos h2, if_pos ((strIncludes_disj_iff _ _).mp h2)]
  · rw [if_neg h2, if_neg (fun hc => h2 ((strIncludes_disj_iff _ _).mpr hc)),
      levenshteinDistance_eq_spec]

/-- C7 counterexample: `"!"` is a non-empty string, yet the mapper's
similarity of `"!"` with itself is 0, not 1, because the claimed
reflexivity fails on names that normalize to the empty string. -/
theorem C7_reflexivity_fails_on_nonalnum :
    calculateNameSimilarity "!" "!" = 0 ∧ ("!" : String) ≠ "" ∧ (0 : ℚ) ≠ 1 := by
  exact ⟨rfl, by decide, by norm_num⟩

/-- C7 (amended): similarity is 1 on every pair `(a, a)` whose normalized
form is non-empty (rather than for every non-empty `a`); similarity is
symmetric; and similarity of the empty string with anything is 0. -/
theorem C7_similarity_algebra_amended :
    (∀ a : String, normalizeName a ≠ [] → calculateNameSimilarity a a = 1) ∧
      (∀ a b : String, calculateNameSimilarity a b = calculateNameSimilarity b a) ∧
      (∀ x : String, calculateNameSimilarity "" x = 0) := by
  refine ⟨?_, ?_, ?_⟩
  · intro a h
    unfold calculateNameSimilarity
    rw [if_neg (fun hh => h (hh.elim id id))]
    simp
  · intro a b
    simp only [calculateNameSimilarity]
    by_cases h0 : normalizeName a = [] ∨ normalizeName b = []
    · rw [if_pos h0, if_pos (Or.symm h0)]
    · have h02 : ¬(normalizeName b = [] ∨ normalizeName a = []) :=
        fun hh => h0 (Or.symm hh)
      rw [if_neg h0, if_neg h02]
      by_cases h1 : normalizeName a = normalizeName b
      · rw [if_pos h1, if_pos h1.symm]
      · have h12 : ¬(normalizeName b = normalizeName a) := fun hh => h1 hh.symm
        rw [if_neg h1, if_neg h12]
        by_cases h2 : strIncludes (normalizeName a) (normalizeName b) = true ∨
            strIncludes (normalizeName b) (normalizeName a) = true
        · rw [if_pos h2, if_pos (Or.symm h2)]
        · have h22 : ¬(strIncludes (normalizeName b) (normalizeName a) = true ∨
              strIncludes (normalizeName a) (normalizeName b) = true) :=
            fun hh => h2 (Or.symm hh)
          rw [if_neg h2, if_neg h22, levenshteinDistance_eq_spec,
            levenshteinDistance_eq_spec, specLevenshtein_comm (normalizeName a),
            max_comm (normalizeName a).length]
  · intro x
    rfl

/-- C7 witness: the amended reflexivity applies to `"ok"`, whose
normalized form is non-empty, and yields similarity 1. -/
theorem C7_similarity_algebra_amended_witness :
    normalizeName "ok" ≠ [] ∧ calculateNameSimilarity "ok" "ok" = 1 :=
  ⟨by decide, C7_similarity_algebra_amended.1 "ok" (by decide)⟩

/-- C10: the similarity score lands in `[0, 1]` for all input strings
(the DP Levenshtein distance never exceeds the longer normalized length),
and consequently every pass-2 fallback mapping, whose initial confidence
is the accepted best similarity score, starts with a confidence in
`[0, 1]`. -/
theorem C10_similarity_and_fallback_confidence_bounds :
    (∀ a b : String,
        0 ≤ calculateNameSimilarity a b ∧ calculateNameSimilarity a b ≤ 1) ∧
      (∀ (figmaName : String) (edsNames : List String) (c : ℚ),
        pass2MappingConfidence figmaName edsNames = some c → 0 ≤ c ∧ c ≤ 1) := by
  refine ⟨calculateNameSimilarity_bounds, ?_⟩
  intro f lib c h
  simp only [pass2MappingConfidence] at h
  cases hmap : lib.map (fun e => calculateNameSimilarity f e) with
  | nil => rw [hmap] at h; exact absurd h (by simp)
  | cons s rest =>
      rw [hmap] at h
      simp only at h
      have hb : 0 ≤ rest.foldl max s ∧ rest.foldl max s ≤ 1 := by
        refine foldl_max_bounds rest s ?_ ?_
        · have : s ∈ lib.map (fun e => calculateNameSimilarity f e) := by
            rw [hmap]; exact List.mem_cons_self _ _
          obtain ⟨e, _, he⟩ := List.mem_map.mp this
          exact he ▸ calculateNameSimilarity_bounds f e
        · intro q hq
          have : q ∈ lib.map (fun e => calculateNameSimilarity f e) := by
            rw [hmap]; exact List.mem_cons_of_mem _ hq
          obtain ⟨e, _, he⟩ := List.mem_map.mp this
          exact he ▸ calculateNameSimilarity_bounds f e
      by_cases ht : (6 : ℚ) / 10 < rest.foldl max s
      · rw [if_pos ht] at h
        cases h
        exact hb
      · rw [if_neg ht] at h
        exact absurd h (by simp)

/-- C10 witness: concrete instances of both bounds; the pass-2 fallback
hypothesis is discharged at a library whose best similarity is 1. -/
theorem C10_similarity_and_fallback_confidence_bounds_witness :
    (0 ≤ calculateNameSimilarity "card" "cart" ∧
        calculateNameSimilarity "card" "cart" ≤ 1) ∧
      (0 ≤ (1 : ℚ) ∧ (1 : ℚ) ≤ 1) := by
  have hsim : calculateNameSimilarity "Button" "button" = 1 := rfl
  have h : pass2MappingConfidence "Button" ["button"] = some 1 := by
    simp only [pass2MappingConfidence, List.map, hsim, List.foldl_nil]
    norm_num
  exact ⟨C10_similarity_and_fallback_confidence_bounds.1 "card" "cart",
    C10_similarity_and_fallback_confidence_bounds.2 "Button" ["button"] 1 h⟩

/-! ## Section 2: Figma parser

Source: `src/lib/agents/figma-parser/figmaParserAgent.ts`, `parseJson`
(lines 25-63), `flattenNodes` (lines 68-137), `extractStyles`
(lines 142-206), `identifyComponents` (lines 210-245), getter methods
(lines 250-270).
-/

/-- An rgba color payload (`fill.color`). -/
structure FigColor where
  r : ℚ
  g : ℚ
  b : ℚ
  a : ℚ
  deriving DecidableEq

/-- One entry of a node's `fills` array.  `type` is `""` when the fill has
no (truthy) `type`; `visible`, `opacity` and `color` are `none` when the
corresponding key is absent. -/
structure Fill where
  type : String := ""
  visible : Option Bool := none
  opacity : Option ℚ := none
  color : Option FigColor := none
  deriving DecidableEq

/-- One entry of a node's `effects` array. -/
structure Effect where
  type : String := ""
  visible : Option Bool := none
  deriving DecidableEq

/-- The optional raw-node keys that `flattenNodes` copies into
`flatNode.properties` and that the embedded pipeline reads.  `none`
models an absent key.  `fontName` holds the font family (the source
accepts either a string or an object with a `family` key; only the
family value is ever read). -/
structure RawProps where
  fills : Option (List Fill) := none
  effects : Option (List Effect) := none
  cornerRadius : Option ℚ := none
  opacity : Option ℚ := none
  characters : Option String := none
  fontSize : Option ℚ := none
  fontName : Option String := none
  textAlignHorizontal : Option String := none
  textAlignVertical : Option String := none
  letterSpacing : Option ℚ := none
  lineHeight : Option ℚ := none
  textCase : Option String := none
  textDecoration : Option String := none
  visible : Option Bool := none
  deriving DecidableEq

/-- A node of the raw nested document tree handed to the parser. -/
inductive RawNode where
  | mk (id name type : String) (props : RawProps) (children : List RawNode)

def RawNode.id : RawNode → String
  | .mk i _ _ _ _ => i

def RawNode.name : RawNode → String
  | .mk _ n _ _ _ => n

def RawNode.type : RawNode → String
  | .mk _ _ t _ _ => t

def RawNode.props : RawNode → RawProps
  | .mk _ _ _ p _ => p

def RawNode.children : RawNode → List RawNode
  | .mk _ _ _ _ c => c

/-- JavaScript truthiness for an optional number: `0` is falsy. -/
def truthyNum : Option ℚ → Option ℚ
  | some v => if v = 0 then none else some v
  | none => none

/-- JavaScript truthiness for an optional string: `""` is falsy. -/
def truthyStr : Option String → Option String
  | some s => if s = "" then none else some s
  | none => none

/-- The properties record of a flattened node, holding the keys copied by
`flattenNodes` (each guarded by `if (node.key)`, i.e. JavaScript
truthiness, except `visible`, which is copied whenever it is not
`undefined`). -/
structure NodeProps where
  fills : Option (List Fill) := none
  effects : Option (List Effect) := none
  cornerRadius : Option ℚ := none
  opacity : Option ℚ := none
  characters : Option String := none
  fontSize : Option ℚ := none
  fontName : Option String := none
  textAlignHorizontal : Option String := none
  textAlignVertical : Option String := none
  letterSpacing : Option ℚ := none
  lineHeight : Option ℚ := none
  textCase : Option String := none
  textDecoration : Option String := none
  visible : Option Bool := none
  deriving DecidableEq

/-- The property extraction of `flattenNodes`: numeric and string keys
are copied only when truthy (so `cornerRadius: 0`, `fontSize: 0`,
`characters: ""` are dropped, exactly as in the source), arrays whenever
present, and `visible` whenever defined. -/
def extractNodeProps (p : RawProps) : NodeProps where
  fills := p.fills
  effects := p.effects
  cornerRadius := truthyNum p.cornerRadius
  opacity := truthyNum p.opacity
  characters := truthyStr p.characters
  fontSize := truthyNum p.fontSize
  fontName := truthyStr p.fontName
  textAlignHorizontal := truthyStr p.textAlignHorizontal
  textAlignVertical := truthyStr p.textAlignVertical
  letterSpacing := truthyNum p.letterSpacing
  lineHeight := truthyNum p.lineHeight
  textCase := truthyStr p.textCase
  textDecoration := truthyStr p.textDecoration
  visible := p.visible

/-- A flattened node (`FigmaNode` in the source). -/
structure FigmaNode where
  id : String
  name : String
  type : String
  parentId : Option String
  depth : Nat
  children : List String
  properties : NodeProps
  deriving DecidableEq

/-- The flattened entry created for one raw node by `traverseNodes`. -/
def flatEntry (n : RawNode) (parentId : Option String) (depth : Nat) : FigmaNode where
  id := n.id
  name := n.name
  type := n.type
  parentId := parentId
  depth := depth
  children := n.children.map RawNode.id
  properties := extractNodeProps n.props

/-- Depth-first traversal of a forest of raw nodes, in the source's
order: the entry for a node is emitted first, then its descendants
(left-to-right), then its right siblings.  `flattenForest ns pid d`
models the sequence of `this.flattenedNodes.push` calls made by
`traverseNodes` over the trees `ns`, with current parent `pid` and
depth `d`. -/
def flattenForest : List RawNode → Option String → Nat → List FigmaNode
  | [], _, _ => []
  | .mk i nm ty pr cs :: rest, parentId, depth =>
      flatEntry (.mk i nm ty pr cs) parentId depth ::
        (flattenForest cs (some i) (depth + 1) ++ flattenForest rest parentId depth)

/-- The parser's `flattenNodes`, started from each page with
`parentId = null` and `depth = 0`. -/
def flattenNodes (pages : List RawNode) : List FigmaNode :=
  flattenForest pages none 0

/-- Total number of nodes in a forest of raw trees. -/
def forestSize : List RawNode → Nat
  | [] => 0
  | .mk _ _ _ _ cs :: rest => 1 + forestSize cs + forestSize rest

/-- The ids of a forest in depth-first (preorder) order: each node before
its children, siblings left-to-right. -/
def forestIds : List RawNode → List String
  | [] => []
  | .mk i _ _ _ cs :: rest => i :: (forestIds cs ++ forestIds rest)

theorem flattenForest_length (ns : List RawNode) (pid : Option String) (d : Nat) :
    (flattenForest ns pid d).length = forestSize ns := by
  induction ns, pid, d using flattenForest.induct with
  | case1 => simp [flattenForest, forestSize]
  | case2 =>
      simp_all [flattenForest, forestSize]
      omega

theorem flattenForest_ids (ns : List RawNode) (pid : Option String) (d : Nat) :
    (flattenForest ns pid d).map FigmaNode.id = forestIds ns := by
  induction ns, pid, d using flattenForest.induct with
  | case1 => simp [flattenForest, forestIds]
  | case2 => simp_all [flattenForest, forestIds, flatEntry, RawNode.id]

/-- Every entry of a flattened forest either carries the parent id and
depth of the traversal root, or is preceded in the output by an entry
whose id is its `parentId` and whose depth is exactly one less. -/
theorem flattenForest_split (ns : List RawNode) (pid : Option String) (d : Nat) :
    ∀ l1 e l2, flattenForest ns pid d = l1 ++ e :: l2 →
      (e.parentId = pid ∧ e.depth = d) ∨
        (∃ f ∈ l1, e.parentId = some f.id ∧ e.depth = f.depth + 1) := by
  induction ns, pid, d using flattenForest.induct with
  | case1 =>
      intro l1 e l2 h
      rw [flattenForest] at h
      exact absurd h.symm (List.append_ne_nil_of_right_ne_nil _ (by simp))
  | case2 i nm ty pr cs rest parentId depth ih2 ih1 =>
      intro l1 e l2 h
      rw [flattenForest] at h
      cases l1 with
      | nil =>
          simp only [List.nil_append, List.cons.injEq] at h
          exact Or.inl (by rw [← h.1]; exact ⟨rfl, rfl⟩)
      | cons E l1' =>
          simp only [List.cons_append, List.cons.injEq] at h
          obtain ⟨hE, hsplit⟩ := h
          rcases List.append_eq_append_iff.mp hsplit with ⟨m, hm1, hm2⟩ | ⟨m, hm1, hm2⟩
          · rcases ih1 m e l2 hm2 with hroot | ⟨f, hf, hpar⟩
            · exact Or.inl hroot
            · exact Or.inr ⟨f, by rw [hm1]; exact List.mem_cons_of_mem _ (List.mem_append_right _ hf), hpar⟩
          · cases m with
            | nil =>
                simp only [List.nil_append] at hm2
                rcases ih1 [] e l2 (by rw [← hm2]; rfl) with hroot | ⟨f, hf, hpar⟩
                · exact Or.inl hroot
                · exact absurd hf (List.not_mem_nil f)
            | cons e' m' =>
                have he' : e' = e ∧ m' ++ (flattenForest rest parentId depth) = l2 := by
                  have := hm2.symm
                  simp only [List.cons_append] at this
                  exact ⟨(List.cons.injEq _ _ _ _).mp this |>.1,
                    ((List.cons.injEq _ _ _ _).mp this |>.2)⟩
                rcases ih2 l1' e m' (by rw [hm1, he'.1]) with hroot | ⟨f, hf, hpar⟩
                · refine Or.inr ⟨E, List.mem_cons_self _ _, ?_⟩
                  rw [← hE]
                  exact ⟨hroot.1, by rw [hroot.2]; rfl⟩
                · exact Or.inr ⟨f, List.mem_cons_of_mem _ hf, hpar⟩

/-- C4: for every document whose page trees hold `N` raw nodes in total,
`flattenNodes` returns exactly `N` entries; the ids of the entries are
the preorder ids of the page forest (each source node appears exactly
once, parent before children, siblings left-to-right); and every entry
either is a traversal root (`parentId = null`, `depth = 0`) or is
preceded by an entry whose id is its `parentId` and whose depth is
exactly one less. -/
theorem C4_flatten_complete (pages : List RawNode) :
    (flattenNodes pages).length = forestSize pages ∧
      (flattenNodes pages).map FigmaNode.id = forestIds pages ∧
      (∀ l1 e l2, flattenNodes pages = l1 ++ e :: l2 →
        (e.parentId = none ∧ e.depth = 0) ∨
          (∃ f ∈ l1, e.parentId = some f.id ∧ e.depth = f.depth + 1)) :=
  ⟨flattenForest_length pages none 0, flattenForest_ids pages none 0,
    flattenForest_split pages none 0⟩

/-- A sample raw node with empty properties, for concrete evaluations. -/
def demoRaw (i : String) (cs : List RawNode) : RawNode :=
  .mk i ("n" ++ i) "FRAME" {} cs

/-- A one-page document: page `p` with children `a` (itself with child
`b`) and `c`. -/
def demoPages : List RawNode :=
  [demoRaw "p" [demoRaw "a" [demoRaw "b" []], demoRaw "c" []]]

/-- The flattened entry expected for a `demoRaw` node. -/
def demoEntry (i : String) (pid : Option String) (d : Nat) (cs : List String) : FigmaNode :=
  ⟨i, "n" ++ i, "FRAME", pid, d, cs, {}⟩

/-- C4 witness: on the sample document the traversal produces the four
entries in preorder, and the entry for `b` (a non-root) points at the
earlier entry for `a` with depth one greater. -/
theorem C4_flatten_complete_witness :
    flattenNodes demoPages =
        [demoEntry "p" none 0 ["a", "c"], demoEntry "a" (some "p") 1 ["b"],
          demoEntry "b" (some "a") 2 [], demoEntry "c" (some "p") 1 []] ∧
      (((demoEntry "b" (some "a") 2 []).parentId = none ∧
          (demoEntry "b" (some "a") 2 []).depth = 0) ∨
        (∃ f ∈ [demoEntry "p" none 0 ["a", "c"], demoEntry "a" (some "p") 1 ["b"]],
          (demoEntry "b" (some "a") 2 []).parentId = some f.id ∧
            (demoEntry "b" (some "a") 2 []).depth = f.depth + 1)) := by
  have hsplit : flattenNodes demoPages =
      [demoEntry "p" none 0 ["a", "c"], demoEntry "a" (some "p") 1 ["b"]] ++
        demoEntry "b" (some "a") 2 [] :: [demoEntry "c" (some "p") 1 []] := by
    simp [flattenNodes, flattenForest, flatEntry, extractNodeProps, truthyNum,
      truthyStr, demoPages, demoRaw, demoEntry, RawNode.id, RawNode.name,
      RawNode.type, RawNode.props, RawNode.children]
  exact ⟨by simpa using hsplit,
    (C4_flatten_complete demoPages).2.2
      [demoEntry "p" none 0 ["a", "c"], demoEntry "a" (some "p") 1 ["b"]]
      (demoEntry "b" (some "a") 2 []) [demoEntry "c" (some "p") 1 []] hsplit⟩

/-- The payload of a `TEXT` style record (the eight typography keys the
source copies into `value`). -/
structure TextStyleValue where
  fontSize : Option ℚ
  fontName : Option String
  textAlignHorizontal : Option String
  textAlignVertical : Option String
  letterSpacing : Option ℚ
  lineHeight : Option ℚ
  textCase : Option String
  textDecoration : Option String
  deriving DecidableEq

/-- The raw value stored in a style record. -/
inductive StyleValue where
  | fillValue (f : Fill)
  | textValue (t : TextStyleValue)
  | effectValue (e : Effect)
  deriving DecidableEq

/-- A `FigmaStyle` record as produced by `extractStyles`. -/
structure FigmaStyle where
  id : String
  name : String
  type : String
  value : StyleValue
  nodeId : String
  deriving DecidableEq

/-- Assignment `record[key] = value` on a JavaScript object modelled as
an insertion-ordered association list: an existing key keeps its
position and gets the new value, a new key is appended. -/
def recordSet (m : List (String × FigmaStyle)) (k : String) (v : FigmaStyle) :
    List (String × FigmaStyle) :=
  if m.any (fun p => p.1 = k) then m.map (fun p => if p.1 = k then (k, v) else p)
  else m ++ [(k, v)]

/-- JavaScript truthiness of an optional number, as a test. -/
def truthyNumB : Option ℚ → Bool
  | some v => v != 0
  | none => false

def fillStyleKey (nid t : String) : String := "fill-" ++ nid ++ "-" ++ t

def textStyleKey (nid : String) : String := "text-" ++ nid

def effectStyleKey (nid t : String) : String := "effect-" ++ nid ++ "-" ++ t

/-- Fill pass of `extractStyles` for one node: one record per fill with a
truthy `type` whose `visible` is not explicitly `false`, keyed by
`fill-<nodeId>-<fillType>`. -/
def extractFillStyles (acc : List (String × FigmaStyle)) (n : FigmaNode) :
    List (String × FigmaStyle) :=
  match n.properties.fills with
  | none => acc
  | some fills =>
      fills.foldl
        (fun a f =>
          if f.type ≠ "" ∧ f.visible ≠ some false then
            recordSet a (fillStyleKey n.id f.type)
              ⟨fillStyleKey n.id f.type, n.name ++ " Fill", "FILL", .fillValue f, n.id⟩
          else a)
        acc

/-- Text pass of `extractStyles` for one node: one record for a `TEXT`
node with a truthy `fontSize`, keyed by `text-<nodeId>`. -/
def extractTextStyle (acc : List (String × FigmaStyle)) (n : FigmaNode) :
    List (String × FigmaStyle) :=
  if n.type = "TEXT" ∧ truthyNumB n.properties.fontSize then
    recordSet acc (textStyleKey n.id)
      ⟨textStyleKey n.id, n.name ++ " Text", "TEXT",
        .textValue ⟨n.properties.fontSize, n.properties.fontName,
          n.properties.textAlignHorizontal, n.properties.textAlignVertical,
          n.properties.letterSpacing, n.properties.lineHeight,
          n.properties.textCase, n.properties.textDecoration⟩, n.id⟩
  else acc

/-- Effect pass of `extractStyles` for one node, keyed by
`effect-<nodeId>-<effectType>`. -/
def extractEffectStyles (acc : List (String × FigmaStyle)) (n : FigmaNode) :
    List (String × FigmaStyle) :=
  match n.properties.effects with
  | none => acc
  | some effects =>
      effects.foldl
        (fun a e =>
          if e.type ≠ "" ∧ e.visible ≠ some false then
            recordSet a (effectStyleKey n.id e.type)
              ⟨effectStyleKey n.id e.type, n.name ++ " Effect", "EFFECT", .effectValue e, n.id⟩
          else a)
        acc

/-- Processing of one node by `extractStyles`: fills, then the text
style, then effects, all written into the shared record. -/
def extractNodeStyles (acc : List (String × FigmaStyle)) (n : FigmaNode) :
    List (String × FigmaStyle) :=
  extractEffectStyles (extractTextStyle (extractFillStyles acc n) n) n

/-- Source `extractStyles` over a list of flattened nodes, starting from
the record `acc` (the agent's `extractedStyles` field, which the source
never clears). -/
def extractStylesFrom (acc : List (String × FigmaStyle)) (nodes : List FigmaNode) :
    List (String × FigmaStyle) :=
  nodes.foldl extractNodeStyles acc

/-- Style extraction from an empty record (a fresh parser). -/
def extractStyles (nodes : List FigmaNode) : List (String × FigmaStyle) :=
  extractStylesFrom [] nodes

theorem recordSet_keys_mem (m : List (String × FigmaStyle)) (k : String)
    (v : FigmaStyle) (k2 : String) :
    k2 ∈ (recordSet m k v).map Prod.fst ↔ k2 ∈ m.map Prod.fst ∨ k2 = k := by
  unfold recordSet
  by_cases h : m.any (fun p => p.1 = k)
  · rw [if_pos h]
    have hk : k ∈ m.map Prod.fst := by
      obtain ⟨p, hp, hpk⟩ := List.any_eq_true.mp h
      exact List.mem_map.mpr ⟨p, hp, of_decide_eq_true hpk⟩
    have hkeys : (m.map (fun p => if p.1 = k then (k, v) else p)).map Prod.fst =
        m.map Prod.fst := by
      rw [List.map_map]
      refine List.map_congr_left ?_
      intro p _
      by_cases hp : p.1 = k
      · simp [hp]
      · simp [hp]
    rw [hkeys]
    constructor
    · exact Or.inl
    · rintro (hm | rfl)
      · exact hm
      · exact hk
  · rw [if_neg h]
    simp

theorem recordSet_keys_nodup (m : List (String × FigmaStyle)) (k : String)
    (v : FigmaStyle) (h : (m.map Prod.fst).Nodup) :
    ((recordSet m k v).map Prod.fst).Nodup := by
  unfold recordSet
  by_cases hmem : m.any (fun p => p.1 = k)
  · rw [if_pos hmem]
    have hkeys : (m.map (fun p => if p.1 = k then (k, v) else p)).map Prod.fst =
        m.map Prod.fst := by
      rw [List.map_map]
      refine List.map_congr_left ?_
      intro p _
      by_cases hp : p.1 = k
      · simp [hp]
      · simp [hp]
    rwa [hkeys]
  · rw [if_neg hmem]
    rw [List.map_append]
    refine List.Nodup.append h (by simp) ?_
    intro a ha hb
    simp only [List.map_cons, List.map_nil, List.mem_singleton] at hb
    subst hb
    obtain ⟨p, hp, hpk⟩ := List.mem_map.mp ha
    exact (List.any_eq_true.not.mp hmem) ⟨p, hp, decide_eq_true hpk⟩

/-- Key membership after a conditional-`recordSet` fold over a list of
items. -/
theorem foldl_recordSet_keys_mem {α : Type} (items : List α)
    (cond : α → Prop) [DecidablePred cond] (key : α → String) (val : α → FigmaStyle)
    (acc : List (String × FigmaStyle)) (k2 : String) :
    (k2 ∈ ((items.foldl
        (fun a x => if cond x then recordSet a (key x) (val x) else a) acc).map Prod.fst)) ↔
      (k2 ∈ acc.map Prod.fst ∨ ∃ x ∈ items, cond x ∧ k2 = key x) := by
  induction items generalizing acc with
  | nil => simp
  | cons x t ih =>
      simp only [List.foldl_cons]
      by_cases hx : cond x
      · rw [if_pos hx, ih, recordSet_keys_mem]
        constructor
        · rintro ((hm | rfl) | ⟨y, hy, hcy, rfl⟩)
          · exact Or.inl hm
          · exact Or.inr ⟨x, List.mem_cons_self _ _, hx, rfl⟩
          · exact Or.inr ⟨y, List.mem_cons_of_mem _ hy, hcy, rfl⟩
        · rintro (hm | ⟨y, hy, hcy, rfl⟩)
          · exact Or.inl (Or.inl hm)
          · rcases List.mem_cons.mp hy with rfl | hy2
            · exact Or.inl (Or.inr rfl)
            · exact Or.inr ⟨y, hy2, hcy, rfl⟩
      · rw [if_neg hx, ih]
        constructor
        · rintro (hm | ⟨y, hy, hcy, rfl⟩)
          · exact Or.inl hm
          · exact Or.inr ⟨y, List.mem_cons_of_mem _ hy, hcy, rfl⟩
        · rintro (hm | ⟨y, hy, hcy, rfl⟩)
          · exact Or.inl hm
          · rcases List.mem_cons.mp hy with rfl | hy2
            · exact absurd hcy hx
            · exact Or.inr ⟨y, hy2, hcy, rfl⟩

/-- Key distinctness is preserved by a conditional-`recordSet` fold. -/
theorem foldl_recordSet_keys_nodup {α : Type} (items : List α)
    (cond : α → Prop) [DecidablePred cond] (key : α → String) (val : α → FigmaStyle)
    (acc : List (String × FigmaStyle)) (h : (acc.map Prod.fst).Nodup) :
    (((items.foldl
        (fun a x => if cond x then recordSet a (key x) (val x) else a) acc).map Prod.fst)).Nodup := by
  induction items generalizing acc with
  | nil => exact h
  | cons x t ih =>
      simp only [List.foldl_cons]
      by_cases hx : cond x
      · rw [if_pos hx]
        exact ih _ (recordSet_keys_nodup _ _ _ h)
      · rw [if_neg hx]
        exact ih _ h

theorem fillStyleKey_data (i t : String) :
    (fillStyleKey i t).data = 'f' :: 'i' :: 'l' :: 'l' :: '-' :: (i.data ++ '-' :: t.data) := by
  simp only [fillStyleKey, String.data_append, List.append_assoc]
  rfl

theorem textStyleKey_data (i : String) :
    (textStyleKey i).data = 't' :: 'e' :: 'x' :: 't' :: '-' :: i.data := by
  simp only [textStyleKey, String.data_append]
  rfl

theorem effectStyleKey_data (i t : String) :
    (effectStyleKey i t).data =
      'e' :: 'f' :: 'f' :: 'e' :: 'c' :: 't' :: '-' :: (i.data ++ '-' :: t.data) := by
  simp only [effectStyleKey, String.data_append, List.append_assoc]
  rfl

theorem fillStyleKey_ne_textStyleKey (i i2 t : String) :
    fillStyleKey i t ≠ textStyleKey i2 := by
  intro h
  have hd := congrArg String.data h
  rw [fillStyleKey_data, textStyleKey_data] at hd
  injection hd with h1 _
  exact absurd h1 (by decide)

theorem fillStyleKey_ne_effectStyleKey (i i2 t t2 : String) :
    fillStyleKey i t ≠ effectStyleKey i2 t2 := by
  intro h
  have hd := congrArg String.data h
  rw [fillStyleKey_data, effectStyleKey_data] at hd
  injection hd with h1 _
  exact absurd h1 (by decide)

theorem textStyleKey_ne_effectStyleKey (i i2 t : String) :
    textStyleKey i ≠ effectStyleKey i2 t := by
  intro h
  have hd := congrArg String.data h
  rw [textStyleKey_data, effectStyleKey_data] at hd
  injection hd with h1 _
  exact absurd h1 (by decide)

theorem fillStyleKey_inj (i t1 t2 : String)
    (h : fillStyleKey i t1 = fillStyleKey i t2) : t1 = t2 := by
  have hd := congrArg String.data h
  rw [fillStyleKey_data, fillStyleKey_data] at hd
  injection hd with _ hd
  injection hd with _ hd
  injection hd with _ hd
  injection hd with _ hd
  injection hd with _ hd
  have := List.append_cancel_left hd
  injection this with _ this
  exact String.ext this

theorem effectStyleKey_inj (i t1 t2 : String)
    (h : effectStyleKey i t1 = effectStyleKey i t2) : t1 = t2 := by
  have hd := congrArg String.data h
  rw [effectStyleKey_data, effectStyleKey_data] at hd
  injection hd with _ hd
  injection hd with _ hd
  injection hd with _ hd
  injection hd with _ hd
  injection hd with _ hd
  injection hd with _ hd
  injection hd with _ hd
  have := List.append_cancel_left hd
  injection this with _ this
  exact String.ext this

theorem extractFillStyles_keys_mem (acc : List (String × FigmaStyle)) (n : FigmaNode)
    (k2 : String) :
    k2 ∈ (extractFillStyles acc n).map Prod.fst ↔
      k2 ∈ acc.map Prod.fst ∨
        ∃ f ∈ n.properties.fills.getD [],
          (f.type ≠ "" ∧ f.visible ≠ some false) ∧ k2 = fillStyleKey n.id f.type := by
  unfold extractFillStyles
  cases hf : n.properties.fills with
  | none => simp [hf]
  | some fills =>
      simp only [Option.getD_some]
      exact foldl_recordSet_keys_mem fills _ _ _ acc k2

theorem extractTextStyle_keys_mem (acc : List (String × FigmaStyle)) (n : FigmaNode)
    (k2 : String) :
    k2 ∈ (extractTextStyle acc n).map Prod.fst ↔
      k2 ∈ acc.map Prod.fst ∨
        ((n.type = "TEXT" ∧ truthyNumB n.properties.fontSize = true) ∧
          k2 = textStyleKey n.id) := by
  unfold extractTextStyle
  by_cases h : n.type = "TEXT" ∧ truthyNumB n.properties.fontSize
  · rw [if_pos h, recordSet_keys_mem]
    constructor
    · rintro (hm | rfl)
      · exact Or.inl hm
      · exact Or.inr ⟨h, rfl⟩
    · rintro (hm | ⟨_, rfl⟩)
      · exact Or.inl hm
      · exact Or.inr rfl
  · rw [if_neg h]
    constructor
    · exact Or.inl
    · rintro (hm | ⟨hc, _⟩)
      · exact hm
      · exact absurd hc h

theorem extractEffectStyles_keys_mem (acc : List (String × FigmaStyle)) (n : FigmaNode)
    (k2 : String) :
    k2 ∈ (extractEffectStyles acc n).map Prod.fst ↔
      k2 ∈ acc.map Prod.fst ∨
        ∃ e ∈ n.properties.effects.getD [],
          (e.type ≠ "" ∧ e.visible ≠ some false) ∧ k2 = effectStyleKey n.id e.type := by
  unfold extractEffectStyles
  cases hf : n.properties.effects with
  | none => simp [hf]
  | some effects =>
      simp only [Option.getD_some]
      exact foldl_recordSet_keys_mem effects _ _ _ acc k2

/-- C5 (amended): per node, style extraction produces records with
pairwise-distinct keys; there is a fill record for exactly the distinct
truthy `type`s among the node's fills whose `visible` is not explicitly
false (so two visible fills of the same type yield a single record, the
second overwriting the first); there is a text record exactly for a
`TEXT` node with a truthy font size; and there is an effect record for
exactly the distinct truthy `type`s among the visible effects. -/
theorem C5_style_records_per_node (n : FigmaNode) :
    ((extractStyles [n]).map Prod.fst).Nodup ∧
      (∀ t, fillStyleKey n.id t ∈ (extractStyles [n]).map Prod.fst ↔
        ∃ f ∈ n.properties.fills.getD [],
          (f.type ≠ "" ∧ f.visible ≠ some false) ∧ fillStyleKey n.id t = fillStyleKey n.id f.type) ∧
      (textStyleKey n.id ∈ (extractStyles [n]).map Prod.fst ↔
        (n.type = "TEXT" ∧ truthyNumB n.properties.fontSize = true)) ∧
      (∀ t, effectStyleKey n.id t ∈ (extractStyles [n]).map Prod.fst ↔
        ∃ e ∈ n.properties.effects.getD [],
          (e.type ≠ "" ∧ e.visible ≠ some false) ∧
            effectStyleKey n.id t = effectStyleKey n.id e.type) := by
  have hunfold : extractStyles [n] =
      extractEffectStyles (extractTextStyle (extractFillStyles [] n) n) n := rfl
  refine ⟨?_, ?_, ?_, ?_⟩
  · rw [hunfold]
    unfold extractEffectStyles
    have h1 : ((extractTextStyle (extractFillStyles [] n) n).map Prod.fst).Nodup := by
      unfold extractTextStyle
      have h0 : ((extractFillStyles [] n).map Prod.fst).Nodup := by
        unfold extractFillStyles
        cases hf : n.properties.fills with
        | none => simp
        | some fills => exact foldl_recordSet_keys_nodup fills _ _ _ [] (by simp)
      by_cases h : n.type = "TEXT" ∧ truthyNumB n.properties.fontSize
      · rw [if_pos h]; exact recordSet_keys_nodup _ _ _ h0
      · rw [if_neg h]; exact h0
    cases hf : n.properties.effects with
    | none => exact h1
    | some effects => exact foldl_recordSet_keys_nodup effects _ _ _ _ h1
  · intro t
    rw [hunfold, extractEffectStyles_keys_mem, extractTextStyle_keys_mem,
      extractFillStyles_keys_mem]
    simp only [List.map_nil, List.not_mem_nil, false_or]
    constructor
    · rintro ((hfill | ⟨_, habs⟩) | ⟨e, _, _, habs⟩)
      · exact hfill
      · exact absurd habs (fillStyleKey_ne_textStyleKey _ _ _)
      · exact absurd habs (fillStyleKey_ne_effectStyleKey _ _ _ _)
    · exact fun h => Or.inl (Or.inl h)
  · rw [hunfold, extractEffectStyles_keys_mem, extractTextStyle_keys_mem,
      extractFillStyles_keys_mem]
    simp only [List.map_nil, List.not_mem_nil, false_or]
    constructor
    · rintro ((⟨f, _, _, habs⟩ | ⟨hc, _⟩) | ⟨e, _, _, habs⟩)
      · exact absurd habs.symm (fillStyleKey_ne_textStyleKey _ _ _)
      · exact hc
      · exact absurd habs (textStyleKey_ne_effectStyleKey _ _ _)
    · exact fun h => Or.inl (Or.inr ⟨h, by simp⟩)
  · intro t
    rw [hunfold, extractEffectStyles_keys_mem, extractTextStyle_keys_mem,
      extractFillStyles_keys_mem]
    simp only [List.map_nil, List.not_mem_nil, false_or]
    constructor
    · rintro ((⟨f, _, _, habs⟩ | ⟨_, habs⟩) | heff)
      · exact absurd habs.symm (fillStyleKey_ne_effectStyleKey _ _ _ _)
      · exact absurd habs.symm (textStyleKey_ne_effectStyleKey _ _ _)
      · exact heff
    · exact fun h => Or.inr h

/-- A node carrying two visible `SOLID` fills. -/
def dupFillNode : FigmaNode :=
  ⟨"n1", "Box", "RECTANGLE", none, 0, [],
    { fills := some [{ type := "SOLID" }, { type := "SOLID" }] }⟩

/-- C5 counterexample: a node with two visible fills of the same type
yields one style record, not two, because both fills map to the key
`fill-n1-SOLID` and the second write overwrites the first. -/
theorem C5_two_visible_fills_one_record :
    (extractStyles [dupFillNode]).length = 1 ∧
      ((dupFillNode.properties.fills.getD []).filter
        (fun f => f.visible != some false)).length = 2 ∧
      (1 : Nat) ≠ 2 := by
  refine ⟨rfl, rfl, by decide⟩

/-- The `document` key of a raw file: a `children` list of page trees,
or `none` when `children` is absent. -/
structure RawDocument where
  children : Option (List RawNode) := none

/-- A raw uploaded file, as far as `parseJson` inspects it. -/
structure RawFile where
  name : Option String := none
  document : Option RawDocument := none

/-- Page construction in `parseJson`: only `id`, `name`, `type` and
`children` are kept (`children` defaulting to `[]`), every other key of
the page object is dropped. -/
def stripPage : RawNode → RawNode
  | .mk i nm ty _ cs => .mk i nm ty {} cs

/-- The parser's design tree (the fields the embedded pipeline reads). -/
structure FigmaDesign where
  name : String
  pages : List RawNode

/-- A component identified by `identifyComponents`. -/
structure FigmaComponent where
  id : String
  name : String
  type : String
  children : List String
  properties : NodeProps
  styles : List (String × FigmaStyle)

/-- Source `identifyComponents`: the flattened nodes of type `COMPONENT`
or `INSTANCE`, each with its direct children and the style records
anchored on it. -/
def identifyComponents (nodes : List FigmaNode)
    (styles : List (String × FigmaStyle)) : List FigmaComponent :=
  (nodes.filter (fun x => x.type == "COMPONENT" || x.type == "INSTANCE")).map
    (fun x =>
      { id := x.id, name := x.name, type := x.type,
        children := (nodes.filter (fun c => c.parentId == some x.id)).map FigmaNode.id,
        properties := x.properties,
        styles := styles.filter (fun s => s.2.nodeId == x.id) })

/-- The mutable fields of the parser agent. -/
structure ParserState where
  designTree : Option FigmaDesign
  flattenedNodes : List FigmaNode
  extractedStyles : List (String × FigmaStyle)
  components : List FigmaComponent

/-- A freshly constructed parser: no tree, no nodes, no styles, no
components. -/
def initialParserState : ParserState := ⟨none, [], [], []⟩

/-- Source `parseJson`: validates that `document` and `document.children`
exist (otherwise the raised error is caught and rethrown with the
`Failed to parse Figma file:` preamble and the state is left untouched),
then builds the page list, flattens, extracts styles and identifies
components.  When the page forest is empty, `extractStyles` raises its
initialization error after the design tree and the (empty) flattened
list have already been stored. -/
def parseJson (raw : RawFile) (st : ParserState) :
    Except String FigmaDesign × ParserState :=
  match raw.document with
  | none => (.error "Failed to parse Figma file: Invalid Figma file format", st)
  | some doc =>
      match doc.children with
      | none => (.error "Failed to parse Figma file: Invalid Figma file format", st)
      | some kids =>
          let pages := kids.map stripPage
          let tree : FigmaDesign := ⟨(truthyStr raw.name).getD "Untitled Design", pages⟩
          let st1 := { st with designTree := some tree }
          let flat := flattenNodes pages
          let st2 := { st1 with flattenedNodes := flat }
          if flat.isEmpty then
            (.error "Failed to parse Figma file: Design tree or flattened nodes not initialized",
              st2)
          else
            let styles := extractStylesFrom st2.extractedStyles flat
            let st3 := { st2 with extractedStyles := styles }
            let comps := identifyComponents flat styles
            (.ok tree, { st3 with components := comps })

/-- C9: calling the parser with the empty object (no `document`, hence no
`document.children`) fails with the malformed-document error, and the
fresh parser's flattened node list, extracted styles and identified
components all remain empty: no partial output is produced. -/
theorem C9_malformed_document_no_partial_output :
    parseJson {} initialParserState =
        (.error "Failed to parse Figma file: Invalid Figma file format",
          initialParserState) ∧
      (parseJson {} initialParserState).2.flattenedNodes = [] ∧
      (parseJson {} initialParserState).2.extractedStyles = [] ∧
      (parseJson {} initialParserState).2.components = [] :=
  ⟨rfl, rfl, rfl, rfl⟩

/-! ## Section 3: design analyzer

Source: `src/lib/agents/design-analyzer/designAnalyzerAgent.ts`,
`detectButtonPatterns` (lines 122-191), `calculatePatternConfidence`
(lines 477-503), `validateTypography` (lines 672-751),
`findNearestStandardSize` (lines 759-763).
-/

/-- A detected UI pattern.  `properties` is the archetype-specific
attribute object (booleans stored as their string form). -/
structure ComponentPattern where
  id : String
  type : String
  nodeId : String
  name : String
  confidence : ℚ
  properties : List (String × String)
  matchedNodes : List String

/-- Lowercased node name (`name.toLowerCase()`), as a character list. -/
def lowerName (s : String) : List Char := s.data.map Char.toLower

/-- The name test of `detectButtonPatterns`: the lowercased name contains
`button` or `btn`. -/
def buttonNameHint (n : FigmaNode) : Bool :=
  strIncludes (lowerName n.name) "button".data || strIncludes (lowerName n.name) "btn".data

/-- A defined corner radius (`cornerRadius !== undefined`). -/
def hasButtonShape (n : FigmaNode) : Bool :=
  n.properties.cornerRadius.isSome

/-- Some fill whose `visible` is not explicitly false. -/
def hasButtonFill (n : FigmaNode) : Bool :=
  match n.properties.fills with
  | some fills => fills.any (fun f => f.visible != some false)
  | none => false

/-- Existence of a `TEXT` child among the flattened nodes. -/
def hasTextChild (nodes : List FigmaNode) (n : FigmaNode) : Bool :=
  nodes.any (fun c => c.parentId == some n.id && c.type == "TEXT")

/-- The candidate test of `detectButtonPatterns`. -/
def isButtonCandidate (nodes : List FigmaNode) (n : FigmaNode) : Bool :=
  (buttonNameHint n || (hasButtonShape n && hasButtonFill n)) && hasTextChild nodes n

/-- The first `TEXT` child of a node. -/
def findTextChild (nodes : List FigmaNode) (n : FigmaNode) : Option FigmaNode :=
  nodes.find? (fun c => c.parentId == some n.id && c.type == "TEXT")

/-- The button pattern built for one candidate node: label from the text
child's truthy `characters` (default "Button"); variant `secondary` when
the first visible fill has a truthy opacity below 1, `outline` when
there is no visible fill or the visible fill is a fully transparent
solid, else `primary`; size from the text child's truthy font size
(below 14 `sm`, above 16 `lg`, else `md`); `disabled` when a defined
opacity is below 1; and the fixed initial confidence `0.85`. -/
def mkButtonPattern (nodes : List FigmaNode) (n : FigmaNode) : ComponentPattern :=
  let textChild := findTextChild nodes n
  let label :=
    match textChild with
    | some t =>
        match t.properties.characters with
        | some s => if s = "" then "Button" else s
        | none => "Button"
    | none => "Button"
  let variant :=
    match n.properties.fills with
    | some fills =>
        let fill0 := fills.find? (fun f => f.visible != some false)
        if (match fill0 with
            | some f => (match f.opacity with
                | some o => o != 0 && decide (o < 1)
                | none => false)
            | none => false) then "secondary"
        else if (match fill0 with
            | none => true
            | some f => f.type == "SOLID" &&
                (match f.color with
                 | some c => decide (c.a = 0)
                 | none => false)) then "outline"
        else "primary"
    | none => "primary"
  let size :=
    match textChild with
    | some t =>
        match truthyNum t.properties.fontSize with
        | some v => if v < 14 then "sm" else if v > 16 then "lg" else "md"
        | none => "md"
    | none => "md"
  let disabled :=
    match n.properties.opacity with
    | some o => decide (o < 1)
    | none => false
  { id := "button-" ++ n.id, type := "button", nodeId := n.id, name := n.name,
    confidence := 85 / 100,
    properties := [("variant", variant), ("size", size), ("label", label),
      ("disabled", if disabled then "true" else "false")],
    matchedNodes := n.id :: (match textChild with | some t => [t.id] | none => []) }

/-- Source `detectButtonPatterns`: one pattern per candidate node, in
node order. -/
def detectButtonPatterns (nodes : List FigmaNode) : List ComponentPattern :=
  (nodes.filter (isButtonCandidate nodes)).map (mkButtonPattern nodes)

/-- The button confidence formula exactly as claimed: 0.5 for the exact
name "button", 0.3 for a partial name match, else 0; plus 0.2 when a
corner radius is present; plus 0.3 when a text child exists; capped
at 1. -/
def claimedButtonConfidence (nodes : List FigmaNode) (n : FigmaNode) : ℚ :=
  let base : ℚ :=
    if n.name = "button" then 1 / 2
    else if buttonNameHint n then 3 / 10
    else 0
  let radius : ℚ := if (hasButtonShape n) then 1 / 5 else 0
  let text : ℚ := if (hasTextChild nodes n) then 3 / 10 else 0
  min 1 (base + radius + text)

/-- A node named exactly `button`, with a corner radius, a visible fill
and a `TEXT` child. -/
def demoButtonNode : FigmaNode :=
  ⟨"b1", "button", "FRAME", none, 0, ["t1"],
    { fills := some [{ type := "SOLID" }], cornerRadius := some 4 }⟩

/-- The `TEXT` child of `demoButtonNode`. -/
def demoButtonText : FigmaNode :=
  ⟨"t1", "label", "TEXT", some "b1", 1, [],
    { characters := some "Submit", fontSize := some 16 }⟩

/-- The two-node design used for the button-pattern evaluations. -/
def demoButtonNodes : List FigmaNode := [demoButtonNode, demoButtonText]

/-- C2 counterexample: on a node named exactly `button` with a corner
radius and a text child, the claimed formula yields
`min 1 (0.5 + 0.2 + 0.3) = 1`, but the detector assigns the pattern the
fixed initial confidence 0.85. -/
theorem C2_claimed_confidence_formula_fails :
    (detectButtonPatterns demoButtonNodes).map ComponentPattern.confidence = [85 / 100] ∧
      claimedButtonConfidence demoButtonNodes demoButtonNode = 1 ∧
      (85 / 100 : ℚ) ≠ 1 := by
  refine ⟨rfl, ?_, by norm_num⟩
  have h1 : demoButtonNode.name = "button" := rfl
  have h2 : hasButtonShape demoButtonNode = true := rfl
  have h3 : hasTextChild demoButtonNodes demoButtonNode = true := rfl
  simp only [claimedButtonConfidence, h1, h2, h3, if_true, if_pos rfl]
  norm_num [min_def]

/-- C2 (amended): every detected button pattern has confidence exactly
0.85 before the secondary confidence nudges; the claimed
0.5/0.3 + 0.2 + 0.3 formula is not computed anywhere. -/
theorem C2_button_confidence_is_constant (nodes : List FigmaNode)
    (p : ComponentPattern) (hp : p ∈ detectButtonPatterns nodes) :
    p.confidence = 85 / 100 := by
  obtain ⟨n, _, rfl⟩ := List.mem_map.mp hp
  rfl

/-- C2 witness: the pattern detected on the sample design has confidence
0.85. -/
theorem C2_button_confidence_is_constant_witness :
    mkButtonPattern demoButtonNodes demoButtonNode ∈ detectButtonPatterns demoButtonNodes ∧
      (mkButtonPattern demoButtonNodes demoButtonNode).confidence = 85 / 100 := by
  have hmem : mkButtonPattern demoButtonNodes demoButtonNode ∈
      detectButtonPatterns demoButtonNodes := by
    rw [(rfl : detectButtonPatterns demoButtonNodes =
      [mkButtonPattern demoButtonNodes demoButtonNode])]
    exact List.mem_singleton_self _
  exact ⟨hmem, C2_button_confidence_is_constant demoButtonNodes _ hmem⟩

/-- A style-validation issue, with the structured payload fields the
typography checks populate (`fontSize`/`suggestion` for the
non-standard-size infos, `sizes`/`families` for the two bulk
warnings). -/
structure StyleIssue where
  id : String
  type : String
  severity : String
  fontSize : Option ℚ := none
  affectedNodes : List String := []
  sizes : List ℚ := []
  families : List String := []
  suggestion : Option ℚ := none

/-- Update `usedFontSizes.get(k).push(nid)` / `usedFontSizes.set(k, [nid])` on a
JavaScript `Map` modelled as an insertion-ordered association list. -/
def addUse {α : Type} [DecidableEq α] (m : List (α × List String)) (k : α)
    (nid : String) : List (α × List String) :=
  if m.any (fun p => p.1 = k) then
    m.map (fun p => if p.1 = k then (p.1, p.2 ++ [nid]) else p)
  else m ++ [(k, [nid])]

/-- The `usedFontSizes` map of `validateTypography`: font size to the ids
of the `TEXT` nodes (with truthy font size) using it, in first-use
order. -/
def collectFontSizes (nodes : List FigmaNode) : List (ℚ × List String) :=
  nodes.foldl
    (fun m n =>
      if n.type = "TEXT" ∧ truthyNumB n.properties.fontSize then
        addUse m (n.properties.fontSize.getD 0) n.id
      else m)
    []

/-- The `usedFontFamilies` map: tracked for the same nodes, when the
node also has a truthy `fontName`. -/
def collectFontFamilies (nodes : List FigmaNode) : List (String × List String) :=
  nodes.foldl
    (fun m n =>
      if n.type = "TEXT" ∧ truthyNumB n.properties.fontSize ∧
          (truthyStr n.properties.fontName).isSome then
        addUse m ((truthyStr n.properties.fontName).getD "") n.id
      else m)
    []

/-- The analyzer's `standardSizes` array. -/
def standardSizes : List ℚ := [12, 14, 16, 18, 20, 24, 32, 40, 48, 56, 64]

/-- JavaScript `Math.round` on an exact rational: `⌊q + 1/2⌋`, computed
as integer floor division `(2·num + den) / (2·den)`. -/
def jsRound (q : ℚ) : ℤ :=
  Int.fdiv (2 * q.num + (q.den : ℤ)) (2 * (q.den : ℤ))

/-- Source `findNearestStandardSize`: `reduce` over the standard sizes
with no initial value, keeping the element strictly closer to `size`
(ties keep the earlier element). -/
def findNearestStandardSize (s : ℚ) : ℚ :=
  match standardSizes with
  | [] => 0
  | h :: t => t.foldl (fun prev curr => if |curr - s| < |prev - s| then curr else prev) h

/-- The non-standard test of `validateTypography`: neither the size nor
its rounding is in the standard list. -/
def nonStandardSize (s : ℚ) : Prop :=
  s ∉ standardSizes ∧ ((jsRound s : ℚ) ∉ standardSizes)

instance (s : ℚ) : Decidable (nonStandardSize s) := by
  unfold nonStandardSize
  infer_instance

/-- The info issue pushed for one non-standard used font size. -/
def nonStandardIssue (p : ℚ × List String) : StyleIssue :=
  { id := "typography-non-standard", type := "typography", severity := "info",
    fontSize := some p.1, affectedNodes := p.2,
    suggestion := some (findNearestStandardSize p.1) }

/-- Source `validateTypography`: a warning when more than 5 distinct font
sizes are used, one info issue per non-standard used size (in first-use
order, with the nearest standard size as suggestion), and a warning when
more than 2 distinct font families are used. -/
def validateTypography (nodes : List FigmaNode) : List StyleIssue :=
  let sizes := collectFontSizes nodes
  let fams := collectFontFamilies nodes
  (if 5 < sizes.length then
    [{ id := "typography-too-many-sizes", type := "typography", severity := "warning",
       sizes := sizes.map Prod.fst }]
  else []) ++
  ((sizes.filter (fun p => decide (nonStandardSize p.1))).map nonStandardIssue) ++
  (if 2 < fams.length then
    [{ id := "typography-too-many-families", type := "typography", severity := "warning",
       families := fams.map Prod.fst }]
  else [])

theorem addUse_keys_mem {α : Type} [DecidableEq α] (m : List (α × List String))
    (k : α) (nid : String) (k2 : α) :
    k2 ∈ (addUse m k nid).map Prod.fst ↔ k2 ∈ m.map Prod.fst ∨ k2 = k := by
  unfold addUse
  by_cases h : m.any (fun p => p.1 = k)
  · rw [if_pos h]
    have hk : k ∈ m.map Prod.fst := by
      obtain ⟨p, hp, hpk⟩ := List.any_eq_true.mp h
      exact List.mem_map.mpr ⟨p, hp, of_decide_eq_true hpk⟩
    have hkeys : (m.map (fun p => if p.1 = k then (p.1, p.2 ++ [nid]) else p)).map Prod.fst =
        m.map Prod.fst := by
      rw [List.map_map]
      refine List.map_congr_left ?_
      intro p _
      by_cases hp : p.1 = k
      · simp [hp]
      · simp [hp]
    rw [hkeys]
    constructor
    · exact Or.inl
    · rintro (hm | rfl)
      · exact hm
      · exact hk
  · rw [if_neg h]
    simp

/-- Key membership in a conditional-`addUse` fold: exactly the keys of
the qualifying items. -/
theorem foldl_addUse_keys_mem {α β : Type} [DecidableEq α] (items : List β)
    (cond : β → Prop) [DecidablePred cond] (key : β → α) (tag : β → String)
    (acc : List (α × List String)) (k2 : α) :
    (k2 ∈ ((items.foldl
        (fun m x => if cond x then addUse m (key x) (tag x) else m) acc).map Prod.fst)) ↔
      (k2 ∈ acc.map Prod.fst ∨ ∃ x ∈ items, cond x ∧ k2 = key x) := by
  induction items generalizing acc with
  | nil => simp
  | cons x t ih =>
      simp only [List.foldl_cons]
      by_cases hx : cond x
      · rw [if_pos hx, ih, addUse_keys_mem]
        constructor
        · rintro ((hm | rfl) | ⟨y, hy, hcy, rfl⟩)
          · exact Or.inl hm
          · exact Or.inr ⟨x, List.mem_cons_self _ _, hx, rfl⟩
          · exact Or.inr ⟨y, List.mem_cons_of_mem _ hy, hcy, rfl⟩
        · rintro (hm | ⟨y, hy, hcy, rfl⟩)
          · exact Or.inl (Or.inl hm)
          · rcases List.mem_cons.mp hy with rfl | hy2
            · exact Or.inl (Or.inr rfl)
            · exact Or.inr ⟨y, hy2, hcy, rfl⟩
      · rw [if_neg hx, ih]
        constructor
        · rintro (hm | ⟨y, hy, hcy, rfl⟩)
          · exact Or.inl hm
          · exact Or.inr ⟨y, List.mem_cons_of_mem _ hy, hcy, rfl⟩
        · rintro (hm | ⟨y, hy, hcy, rfl⟩)
          · exact Or.inl hm
          · rcases List.mem_cons.mp hy with rfl | hy2
            · exact absurd hcy hx
            · exact Or.inr ⟨y, hy2, hcy, rfl⟩

theorem collectFontSizes_keys_mem (nodes : List FigmaNode) (s : ℚ) :
    s ∈ (collectFontSizes nodes).map Prod.fst ↔
      ∃ n ∈ nodes, (n.type = "TEXT" ∧ truthyNumB n.properties.fontSize = true) ∧
        s = n.properties.fontSize.getD 0 := by
  unfold collectFontSizes
  rw [foldl_addUse_keys_mem nodes
    (fun n => n.type = "TEXT" ∧ truthyNumB n.properties.fontSize = true)
    (fun n => n.properties.fontSize.getD 0) (fun n => n.id) [] s]
  simp

/-- C6 (amended): an info-severity typography issue is emitted for size
`s` iff `s` is used by some `TEXT` node (truthy font size) and neither
`s` nor its rounding lies in the analyzer's standard set
{12,14,16,18,20,24,32,40,48,56,64}; and every issue that carries a font
size suggests exactly the nearest member of that set (ties to the
earlier, smaller element). -/
theorem C6_nonstandard_font_size_issues (nodes : List FigmaNode) :
    (∀ s : ℚ,
      (∃ issue ∈ validateTypography nodes,
          issue.severity = "info" ∧ issue.fontSize = some s) ↔
        ((∃ n ∈ nodes, (n.type = "TEXT" ∧ truthyNumB n.properties.fontSize = true) ∧
            s = n.properties.fontSize.getD 0) ∧ nonStandardSize s)) ∧
    (∀ issue ∈ validateTypography nodes, ∀ s : ℚ, issue.fontSize = some s →
        issue.suggestion = some (findNearestStandardSize s)) := by
  constructor
  · intro s
    constructor
    · rintro ⟨issue, hmem, hsev, hfs⟩
      unfold validateTypography at hmem
      simp only [List.mem_append] at hmem
      rcases hmem with (hA | hB) | hC
      · by_cases h5 : 5 < (collectFontSizes nodes).length
        · rw [if_pos h5] at hA
          rw [List.mem_singleton] at hA
          subst hA
          exact absurd hsev (by simp)
        · rw [if_neg h5] at hA
          exact absurd hA (List.not_mem_nil _)
      · obtain ⟨p, hp, rfl⟩ := List.mem_map.mp hB
        obtain ⟨hp2, hcond⟩ := List.mem_filter.mp hp
        have hns : nonStandardSize p.1 := of_decide_eq_true hcond
        have hps : p.1 = s := by
          simpa [nonStandardIssue] using hfs
        subst hps
        refine ⟨?_, hns⟩
        exact (collectFontSizes_keys_mem nodes p.1).mp (List.mem_map.mpr ⟨p, hp2, rfl⟩)
      · by_cases h2 : 2 < (collectFontFamilies nodes).length
        · rw [if_pos h2] at hC
          rw [List.mem_singleton] at hC
          subst hC
          exact absurd hsev (by simp)
        · rw [if_neg h2] at hC
          exact absurd hC (List.not_mem_nil _)
    · rintro ⟨hused, hns⟩
      have hk : s ∈ (collectFontSizes nodes).map Prod.fst :=
        (collectFontSizes_keys_mem nodes s).mpr hused
      obtain ⟨p, hp, hps⟩ := List.mem_map.mp hk
      refine ⟨nonStandardIssue p, ?_, rfl, by rw [← hps]; rfl⟩
      unfold validateTypography
      simp only [List.mem_append]
      refine Or.inl (Or.inr ?_)
      refine List.mem_map.mpr ⟨p, List.mem_filter.mpr ⟨hp, ?_⟩, rfl⟩
      rw [hps]
      exact decide_eq_true hns
  · rintro issue hmem s hfs
    unfold validateTypography at hmem
    simp only [List.mem_append] at hmem
    rcases hmem with (hA | hB) | hC
    · by_cases h5 : 5 < (collectFontSizes nodes).length
      · rw [if_pos h5] at hA
        rw [List.mem_singleton] at hA
        subst hA
        exact absurd hfs (by simp)
      · rw [if_neg h5] at hA
        exact absurd hA (List.not_mem_nil _)
    · obtain ⟨p, _, rfl⟩ := List.mem_map.mp hB
      have hps : p.1 = s := by simpa [nonStandardIssue] using hfs
      subst hps
      rfl
    · by_cases h2 : 2 < (collectFontFamilies nodes).length
      · rw [if_pos h2] at hC
        rw [List.mem_singleton] at hC
        subst hC
        exact absurd hfs (by simp)
      · rw [if_neg h2] at hC
        exact absurd hC (List.not_mem_nil _)

/-- A lone `TEXT` node with font size 32. -/
def size32Node : FigmaNode :=
  ⟨"t1", "Txt", "TEXT", none, 0, [], { fontSize := some 32 }⟩

/-- The standard size set named by the claim. -/
def claimedStandardSizes : List ℚ := [12, 14, 16, 18, 20, 24, 30, 36, 48, 60, 72]

/-- C6 counterexample: the claim's standard set is not the code's.  Font
size 32 is outside the claimed set {12,...,30,36,48,60,72}, so the claim
requires an info issue for it, but the analyzer emits no issue at all,
because 32 belongs to its actual standard set
{12,14,16,18,20,24,32,40,48,56,64}. -/
theorem C6_claimed_standard_set_fails :
    validateTypography [size32Node] = [] ∧
      (32 : ℚ) ∉ claimedStandardSizes ∧ (32 : ℚ) ∈ standardSizes := by
  refine ⟨?_, by decide, by decide⟩
  rfl

/-! ## Section 4: code validator

Source: `src/lib/agents/code-validator/codeValidatorAgent.ts`,
`validateCode` (lines 46-87), `validateComponentSyntax` (react branch,
lines 128-216), `calculateSyntaxScore` (lines 361-378), `checkStyle`
(lines 383-420), `validateComponentStyle` (react branch, lines 425-566),
`calculateStyleScore` (lines 590-615), `checkResponsiveness` /
`validateComponentResponsiveness` (lines 621-739),
`calculateResponsivenessScore` (lines 755-775), `calculateOverallScore`
(lines 788-800).
-/

/-- A generated artifact (`GeneratedComponent`); the layout record has
the same shape without an `id`. -/
structure GeneratedComponent where
  id : String
  name : String
  code : String
  language : String
  success : Bool
  error : Option String := none

/-- A generated layout file. -/
structure GeneratedLayout where
  name : String
  code : String
  language : String
  success : Bool
  error : Option String := none

/-- A code-generation result (`timestamp` carries no validation-relevant
information and is omitted). -/
structure CodeGenerationResult where
  success : Bool
  message : String
  components : List GeneratedComponent
  layout : Option GeneratedLayout
  framework : String

/-- A validation issue; only the fields the verdict logic reads
(`severity`, and `type` for the style-critical test) are modelled,
`message`/`location`/`suggestion` carry no control flow. -/
structure ValidationIssue where
  type : String
  severity : String
  deriving DecidableEq

/-- The wrapping of a layout into a component record used by
`validateLayoutSyntax` / `validateLayoutStyle` /
`validateLayoutResponsiveness`. -/
def layoutAsComponent (l : GeneratedLayout) : GeneratedComponent :=
  { id := "layout", name := l.name, code := l.code, language := l.language,
    success := l.success, error := l.error }

/-- Occurrence count of one character (`(code.match(/x/g) || []).length`). -/
def countChar (s : String) (c : Char) : Nat :=
  (s.data.filter (fun d => d == c)).length

/-- JavaScript `code.includes(pat)` on strings. -/
def hasSub (code pat : String) : Bool :=
  strIncludes code.data pat.data

/-- Source `validateComponentSyntax`, react branch: a warning when no
import/require appears, an error for unbalanced braces, an error for
unbalanced parentheses, the (unsatisfiable, embedded as written) invalid
JSX check, and an error when JSX markup appears without a React
import. -/
def validateComponentSyntaxReact (c : GeneratedComponent) : List ValidationIssue :=
  let code := c.code
  (if !(hasSub code "import " || hasSub code "require(") then
    [{ type := "syntax", severity := "warning" }] else []) ++
  (if countChar code '{' ≠ countChar code '}' then
    [{ type := "syntax", severity := "error" }] else []) ++
  (if countChar code '(' ≠ countChar code ')' then
    [{ type := "syntax", severity := "error" }] else []) ++
  (if hasSub code "return (" && !hasSub code "return (" && !hasSub code "</" then
    [{ type := "syntax", severity := "error" }] else []) ++
  (if (hasSub code "JSX" || (hasSub code "<" && hasSub code "/>")) &&
      !(hasSub code "import React" || hasSub code "from \"react\"" ||
        hasSub code "from 'react'") then
    [{ type := "syntax", severity := "error" }] else [])

/-- Splitting a character list at newlines (`code.split('\n')`). -/
def splitLines : List Char → List (List Char)
  | [] => [[]]
  | c :: r =>
      if c = '\n' then [] :: splitLines r
      else
        match splitLines r with
        | [] => [[c]]
        | l :: ls => (c :: l) :: ls

/-- A whitespace character as used by `trim` / `\S` (space or tab; the
lines under scan are newline-free). -/
def isWhite (c : Char) : Bool := c == ' ' || c == '\t'

/-- Value of `line.search(/\S/)` for a non-blank line: the leading whitespace
count. -/
def indentOf (l : List Char) : Nat := (l.takeWhile isWhite).length

/-- Test `line.trim() === ''`. -/
def isBlankLine (l : List Char) : Bool := l.all isWhite

/-- Test `line.includes(c)` for a single character. -/
def hasChar (l : List Char) (c : Char) : Bool := l.any (fun d => d == c)

/-- The indentation scan of `validateComponentStyle`: walk the lines with
the previous physical line and the previous non-blank indent (−1 at the
start), and report the 1-based number of the first non-blank line whose
indent jumps by more than 2 without a bracket on the boundary lines. -/
def indentGo : List (List Char) → Nat → List Char → Int → Option Nat
  | [], _, _, _ => none
  | l :: rest, i, prevLine, prevIndent =>
      if isBlankLine l then indentGo rest (i + 1) l prevIndent
      else
        let ind : Int := (indentOf l : Int)
        if prevIndent != -1 && decide (2 < (ind - prevIndent).natAbs) &&
            !hasChar prevLine '{' && !hasChar prevLine '(' &&
            !hasChar l '}' && !hasChar l ')' then
          some (i + 1)
        else indentGo rest (i + 1) l ind

/-- The `inconsistentIndentLine` computation over all lines. -/
def findInconsistentIndent : List (List Char) → Option Nat
  | [] => none
  | l :: rest => indentGo rest 1 l (if isBlankLine l then -1 else (indentOf l : Int))

/-- A `[A-Za-z0-9_]` character. -/
def isWordChar (c : Char) : Bool := c.isAlpha || c.isDigit || c == '_'

/-- A `\s` character (the whitespace forms that occur in generated
code). -/
def isSpaceChar (c : Char) : Bool := c == ' ' || c == '\t' || c == '\n' || c == '\r'

/-- Matching `/const\s+([A-Za-z0-9_]+)\s*=/` at the head of `l`,
returning the captured identifier. -/
def matchConstAt (l : List Char) : Option (List Char) :=
  if leadsWith l "const".data then
    let r1 := l.drop 5
    let ws := r1.takeWhile isSpaceChar
    if ws.length = 0 then none
    else
      let r2 := r1.drop ws.length
      let nm := r2.takeWhile isWordChar
      if nm.length = 0 then none
      else
        match (r2.drop nm.length).dropWhile isSpaceChar with
        | '=' :: _ => some nm
        | _ => none
  else none

/-- Scan `code.match(/const\s+([A-Za-z0-9_]+)\s*=/)`: the first position where
the pattern matches. -/
def findConstName : List Char → Option (List Char)
  | [] => none
  | c :: r =>
      match matchConstAt (c :: r) with
      | some nm => some nm
      | none => findConstName r

/-- Test `name[0] !== name[0].toUpperCase()`: the captured component name
starts with a character changed by upper-casing. -/
def namingViolation (nm : List Char) : Bool :=
  match nm with
  | [] => false
  | c :: _ => c != c.toUpper

/-- Source `validateComponentStyle`, react branch: indentation
consistency, long lines, mixed quote styles, PascalCase component naming
(a `style-critical`-tagged warning), and props destructuring. -/
def validateComponentStyleReact (c : GeneratedComponent) : List ValidationIssue :=
  let code := c.code
  let lines := splitLines code.data
  (match findInconsistentIndent lines with
   | some _ => [{ type := "style", severity := "warning" }]
   | none => []) ++
  (if 0 < (lines.filter (fun l => 100 < l.length)).length then
    [{ type := "style", severity := "info" }] else []) ++
  (if 0 < countChar code '\'' ∧ 0 < countChar code '"' ∧
      3 < min (countChar code '\'') (countChar code '"') then
    [{ type := "style", severity := "info" }] else []) ++
  (match findConstName code.data with
   | some nm =>
       if namingViolation nm then
         [{ type := "style-critical", severity := "warning" }]
       else []
   | none => []) ++
  (if hasSub code "props." && !hasSub code "...props" then
    [{ type := "style", severity := "info" }] else [])

/-- Count of `/\d+px/g` matches: maximal digit runs immediately followed
by `px`.  The flag tracks whether the scan is inside a digit run. -/
def countPxGo : List Char → Bool → Nat
  | 'p' :: 'x' :: r, true => 1 + countPxGo r false
  | c :: r, _ => if c.isDigit then countPxGo r true else countPxGo r false
  | [], _ => 0

def countPx (l : List Char) : Nat := countPxGo l false

/-- Count of `/\d+rem|\d+em|\d+%|calc\(/g` matches (`rem`, `em` and
`%` only count directly after a digit run; `calc(` counts anywhere). -/
def countRelGo : List Char → Bool → Nat
  | 'c' :: 'a' :: 'l' :: 'c' :: '(' :: r, _ => 1 + countRelGo r false
  | 'r' :: 'e' :: 'm' :: r, true => 1 + countRelGo r false
  | 'e' :: 'm' :: r, true => 1 + countRelGo r false
  | '%' :: r, true => 1 + countRelGo r false
  | c :: r, _ => if c.isDigit then countRelGo r true else countRelGo r false
  | [], _ => 0

def countRel (l : List Char) : Nat := countRelGo l false

/-- Source `validateComponentResponsiveness` for the react framework: the
missing-media-queries branch is skipped (framework is react), a warning
for excessive fixed pixels (`> 5` matches and relative units fewer than
half of that, `relCount < pxCount / 2` over JavaScript numbers being
`2·relCount < pxCount` exactly), a warning when a layout-named artifact
has no flex/grid display, and no viewport check (html only). -/
def validateComponentResponsivenessReact (c : GeneratedComponent) : List ValidationIssue :=
  let code := c.code
  let pxCount := countPx code.data
  let relCount := countRel code.data
  let hasFlexbox := hasSub code "display: flex" || hasSub code "display:flex"
  let hasGrid := hasSub code "display: grid" || hasSub code "display:grid"
  (if 5 < pxCount ∧ (relCount = 0 ∨ 2 * relCount < pxCount) then
    [{ type := "responsiveness", severity := "warning" }] else []) ++
  (if !hasFlexbox && !hasGrid && strIncludes (lowerName c.name) "layout".data then
    [{ type := "responsiveness", severity := "warning" }] else [])

/-- Source `calculateSyntaxScore`: 1 when no issues, else
`max(0, 1 − 0.3·errors − 0.1·warnings − 0.03·infos)`. -/
def calculateSyntaxScore (issues : List ValidationIssue) : ℚ :=
  if issues = [] then 1
  else
    let e := (issues.filter (fun i => i.severity == "error")).length
    let w := (issues.filter (fun i => i.severity == "warning")).length
    let inf := (issues.filter (fun i => i.severity == "info")).length
    max 0 (1 - ((e : ℚ) * (3 / 10) + (w : ℚ) * (1 / 10) + (inf : ℚ) * (3 / 100)))

/-- The style-critical test of `checkStyle`: error severity, or a warning
tagged `style-critical`. -/
def isStyleCritical (i : ValidationIssue) : Bool :=
  i.severity == "error" || (i.severity == "warning" && i.type == "style-critical")

/-- Source `calculateStyleScore`: 1 when no issues, else
`max(0, 1 − 0.25·critical − 0.1·warnings − 0.02·infos)`. -/
def calculateStyleScore (issues : List ValidationIssue) : ℚ :=
  if issues = [] then 1
  else
    let crit := (issues.filter isStyleCritical).length
    let w := (issues.filter
      (fun i => i.severity == "warning" && i.type != "style-critical")).length
    let inf := (issues.filter (fun i => i.severity == "info")).length
    max 0 (1 - ((crit : ℚ) * (25 / 100) + (w : ℚ) * (1 / 10) + (inf : ℚ) * (2 / 100)))

/-- Source `calculateResponsivenessScore`: 1 when no issues, else
`max(0, 1 − 0.3·errors − 0.15·warnings − 0.05·infos)`. -/
def calculateResponsivenessScore (issues : List ValidationIssue) : ℚ :=
  if issues = [] then 1
  else
    let e := (issues.filter (fun i => i.severity == "error")).length
    let w := (issues.filter (fun i => i.severity == "warning")).length
    let inf := (issues.filter (fun i => i.severity == "info")).length
    max 0 (1 - ((e : ℚ) * (3 / 10) + (w : ℚ) * (15 / 100) + (inf : ℚ) * (5 / 100)))

/-- Source `calculateOverallScore`: `0.5·syntax + 0.3·style +
0.2·responsiveness`. -/
def calculateOverallScore (syn sty resp : ℚ) : ℚ :=
  syn * (1 / 2) + sty * (3 / 10) + resp * (1 / 5)

/-- The validator's result record (the fields `validateCode` computes). -/
structure ValidationReport where
  success : Bool
  syntaxIssues : List ValidationIssue
  styleIssues : List ValidationIssue
  responsivenessIssues : List ValidationIssue
  syntaxScore : ℚ
  styleScore : ℚ
  responsivenessScore : ℚ
  criticalIssues : Nat
  overallScore : ℚ
  isProductionReady : Bool
  issues : List ValidationIssue

/-- Source `validateCode`, parameterized by the per-artifact issue
analyzers (the framework-specific `validateComponent*` branches; the
layout, when present, is analyzed through its component wrapping):
gather the three issue lists over components then layout, compute the
three weighted scores and the overall score, count style-critical
issues, and derive the verdict flags. -/
def validateCodeWith (synF styF respF : GeneratedComponent → List ValidationIssue)
    (gen : CodeGenerationResult) : ValidationReport :=
  let synIssues := gen.components.flatMap synF ++
    (match gen.layout with | some l => synF (layoutAsComponent l) | none => [])
  let styIssues := gen.components.flatMap styF ++
    (match gen.layout with | some l => styF (layoutAsComponent l) | none => [])
  let respIssues := gen.components.flatMap respF ++
    (match gen.layout with | some l => respF (layoutAsComponent l) | none => [])
  let synScore := calculateSyntaxScore synIssues
  let styScore := calculateStyleScore styIssues
  let respScore := calculateResponsivenessScore respIssues
  let overall := calculateOverallScore synScore styScore respScore
  let crit := (styIssues.filter isStyleCritical).length
  let allIssues := synIssues ++ styIssues ++ respIssues
  { success := (allIssues.filter (fun i => i.severity == "error")).length == 0,
    syntaxIssues := synIssues, styleIssues := styIssues,
    responsivenessIssues := respIssues,
    syntaxScore := synScore, styleScore := styScore,
    responsivenessScore := respScore,
    criticalIssues := crit, overallScore := overall,
    isProductionReady := decide (8 / 10 ≤ overall) && (synIssues.length == 0) &&
      (crit == 0),
    issues := allIssues }

/-- The validator instantiated with the react analyzers. -/
def validateCodeReact (gen : CodeGenerationResult) : ValidationReport :=
  validateCodeWith validateComponentSyntaxReact validateComponentStyleReact
    validateComponentResponsivenessReact gen

/-- The production-ready predicate exactly as claimed: overall score at
least 0.8, zero error-severity syntax issues, zero style-critical
issues. -/
def claimedProductionReady (r : ValidationReport) : Prop :=
  8 / 10 ≤ r.overallScore ∧
    (r.syntaxIssues.filter (fun i => i.severity == "error")).length = 0 ∧
    r.criticalIssues = 0

/-- C3 (amended): whatever the per-artifact analyzers produce, the
validator reports production-ready iff the overall score is at least 0.8
AND the syntax check produced zero issues of any severity (not merely
zero error-severity issues) AND the style check produced zero
style-critical issues. -/
theorem C3_production_ready_iff
    (synF styF respF : GeneratedComponent → List ValidationIssue)
    (gen : CodeGenerationResult) :
    (validateCodeWith synF styF respF gen).isProductionReady = true ↔
      (8 / 10 ≤ (validateCodeWith synF styF respF gen).overallScore ∧
        (validateCodeWith synF styF respF gen).syntaxIssues = [] ∧
        (validateCodeWith synF styF respF gen).criticalIssues = 0) := by
  unfold validateCodeWith
  simp only [Bool.and_eq_true, decide_eq_true_eq, beq_iff_eq, List.length_eq_zero]
  tauto

/-- The component fed to the validator in the C3 counterexample. -/
def demoComponent : GeneratedComponent :=
  ⟨"c1", "X", "const X = 1", "typescript", true, none⟩

/-- A react generation result holding only `demoComponent`. -/
def demoGen : CodeGenerationResult := ⟨true, "", [demoComponent], none, "react"⟩

/-- C3 counterexample: on `const X = 1` the react syntax check produces a
single missing-imports warning and no error, style and responsiveness
are clean, and the overall score is 0.95; the claimed verdict
(overall ≥ 0.8, zero error-severity syntax issues, zero style-critical
issues) holds, yet the validator reports not production-ready, because
it requires zero syntax issues of any severity. -/
theorem C3_claimed_verdict_fails :
    (validateCodeReact demoGen).isProductionReady = false ∧
      claimedProductionReady (validateCodeReact demoGen) := by
  have hsyn : (validateCodeReact demoGen).syntaxIssues =
      [⟨"syntax", "warning"⟩] := rfl
  have hcrit : (validateCodeReact demoGen).criticalIssues = 0 := rfl
  have hover : (validateCodeReact demoGen).overallScore =
      calculateOverallScore (calculateSyntaxScore [⟨"syntax", "warning"⟩])
        (calculateStyleScore []) (calculateResponsivenessScore []) := rfl
  have h1 : calculateSyntaxScore [⟨"syntax", "warning"⟩] = 9 / 10 := by
    have hf1 : ([⟨"syntax", "warning"⟩] : List ValidationIssue).filter
        (fun i => i.severity == "error") = [] := rfl
    have hf2 : ([⟨"syntax", "warning"⟩] : List ValidationIssue).filter
        (fun i => i.severity == "warning") = [⟨"syntax", "warning"⟩] := rfl
    have hf3 : ([⟨"syntax", "warning"⟩] : List ValidationIssue).filter
        (fun i => i.severity == "info") = [] := rfl
    norm_num [calculateSyntaxScore, hf1, hf2, hf3, max_def]
  have h2 : calculateStyleScore [] = 1 := by simp [calculateStyleScore]
  have h3 : calculateResponsivenessScore [] = 1 := by
    simp [calculateResponsivenessScore]
  constructor
  · have hread : (validateCodeReact demoGen).isProductionReady =
        (decide (8 / 10 ≤ (validateCodeReact demoGen).overallScore) &&
          ((validateCodeReact demoGen).syntaxIssues.length == 0) &&
          ((validateCodeReact demoGen).criticalIssues == 0)) := rfl
    rw [hread, hsyn]
    simp
  · refine ⟨?_, ?_, hcrit⟩
    · rw [hover, h1, h2, h3]
      norm_num [calculateOverallScore]
    · rw [hsyn]
      rfl

/-! ## Section 5: LLM orchestrator

Source: `src/lib/agents/llm-orchestrator/llmOrchestratorAgent.ts`,
`generateCode` (lines 319-379), `getLanguageFromFramework`
(lines 632-649).
-/

/-- A component mapping, as far as `generateCode` reads it: its id (for
selection and the fallback artifact id) and the Figma component's name
(for the fallback artifact name). -/
structure ComponentMapping where
  id : String
  figmaComponentName : String
  deriving DecidableEq

/-- The framework configuration fields `getLanguageFromFramework`
reads. -/
structure FrameworkConfig where
  name : String
  typescript : Bool := false

/-- A code-generation request: the selected mapping ids and the layout
flag (generation `options` are consumed only by the abstracted inner
generators). -/
structure CodeGenerationRequest where
  mappingIds : List String
  generateLayout : Bool

/-- Source `getLanguageFromFramework`. -/
def getLanguageFromFramework (cfg : Option FrameworkConfig) : String :=
  match cfg with
  | none => "javascript"
  | some c =>
      if c.name = "react" ∨ c.name = "vue" then
        if c.typescript then "typescript" else "javascript"
      else if c.name = "angular" then "typescript"
      else if c.name = "html" then "html"
      else "javascript"

/-- The recovery wrapper of `generateCode` around one component: a
successful inner generation is kept, a thrown error is converted into an
artifact whose code is the single-line error comment and whose `success`
is false.  `gen` abstracts `generateComponentCode`, whose outcome
(return or throw) the try/catch scrutinizes. -/
def generateComponentRecover (cfg : Option FrameworkConfig)
    (gen : ComponentMapping → Except String GeneratedComponent)
    (m : ComponentMapping) : GeneratedComponent :=
  match gen m with
  | .ok a => a
  | .error e =>
      { id := m.id, name := m.figmaComponentName,
        code := "// Error generating code: " ++ e,
        language := getLanguageFromFramework cfg,
        success := false, error := some e }

/-- The layout recovery of `generateCode` (`genLayout` abstracts
`generateLayoutCode`). -/
def generateLayoutRecover (cfg : Option FrameworkConfig)
    (genLayout : List ComponentMapping → Except String GeneratedLayout)
    (selected : List ComponentMapping) : GeneratedLayout :=
  match genLayout selected with
  | .ok l => l
  | .error e =>
      { name := "Layout",
        code := "// Error generating layout code: " ++ e,
        language := getLanguageFromFramework cfg,
        success := false, error := some e }

/-- Source `generateCode`: fails when no framework configuration is set
or no requested mapping id matches; otherwise generates one artifact per
selected mapping (each failure recovered locally), optionally a layout,
and reports overall success exactly when every component artifact
succeeded (the layout is not consulted). -/
def generateCode (cfg : Option FrameworkConfig)
    (gen : ComponentMapping → Except String GeneratedComponent)
    (genLayout : List ComponentMapping → Except String GeneratedLayout)
    (mappings : List ComponentMapping) (request : CodeGenerationRequest) :
    Except String CodeGenerationResult :=
  match cfg with
  | none => .error "Framework configuration not set"
  | some c =>
      let selected := mappings.filter (fun m => request.mappingIds.contains m.id)
      if selected = [] then .error "No valid component mappings selected"
      else
        let generatedComponents := selected.map (generateComponentRecover (some c) gen)
        let layoutCode :=
          if request.generateLayout then
            some (generateLayoutRecover (some c) genLayout selected)
          else none
        .ok { success := generatedComponents.all (fun comp => comp.success),
              message :=
                if generatedComponents.all (fun comp => comp.success) then
                  "Code generation completed successfully"
                else "Some components failed to generate",
              components := generatedComponents,
              layout := layoutCode,
              framework := c.name }

/-- The selected mappings of a request. -/
def selectedMappings (mappings : List ComponentMapping)
    (request : CodeGenerationRequest) : List ComponentMapping :=
  mappings.filter (fun m => request.mappingIds.contains m.id)

/-- C8: when `generateCode` returns a result, it holds one artifact per
selected mapping (a per-component failure does not abort the batch); a
mapping whose inner generation throws contributes an artifact whose code
is the single-line error comment and whose success flag is false; and
the top-level success flag is true iff every component artifact (layout
excluded: the flag does not depend on `genLayout`) has `success =
true`. -/
theorem C8_per_component_recovery (cfg : Option FrameworkConfig)
    (gen : ComponentMapping → Except String GeneratedComponent)
    (genLayout : List ComponentMapping → Except String GeneratedLayout)
    (mappings : List ComponentMapping) (request : CodeGenerationRequest)
    (res : CodeGenerationResult)
    (h : generateCode cfg gen genLayout mappings request = .ok res) :
    res.components.length = (selectedMappings mappings request).length ∧
      (∀ m ∈ selectedMappings mappings request, ∀ e, gen m = .error e →
        ({ id := m.id, name := m.figmaComponentName,
           code := "// Error generating code: " ++ e,
           language := getLanguageFromFramework cfg,
           success := false, error := some e } : GeneratedComponent) ∈ res.components) ∧
      (res.success = true ↔ ∀ a ∈ res.components, a.success = true) := by
  match cfg with
  | none => exact absurd h (by simp [generateCode])
  | some c =>
      unfold generateCode at h
      dsimp only at h
      by_cases hsel : mappings.filter (fun m => request.mappingIds.contains m.id) = []
      · rw [if_pos hsel] at h
        exact absurd h (by simp)
      · rw [if_neg hsel] at h
        simp only [Except.ok.injEq] at h
        subst h
        refine ⟨by simp [selectedMappings], ?_, ?_⟩
        · intro m hm e he
          simp only [selectedMappings] at hm
          refine List.mem_map.mpr ⟨m, hm, ?_⟩
          rw [generateComponentRecover, he]
        · simp [List.all_eq_true]

/-- The mappings used by the C8 witness: generation succeeds on `ok1` and
throws on `bad2`. -/
def demoMappings : List ComponentMapping := [⟨"ok1", "Button"⟩, ⟨"bad2", "Card"⟩]

/-- The inner generator of the C8 witness. -/
def demoGenFn (m : ComponentMapping) : Except String GeneratedComponent :=
  if m.id = "ok1" then
    .ok ⟨"ok1", "Button", "const Button = 1", "javascript", true, none⟩
  else .error "boom"

/-- The request of the C8 witness: both mappings selected, no layout. -/
def demoRequest : CodeGenerationRequest := ⟨["ok1", "bad2"], false⟩

/-- The layout generator of the C8 witness (never called). -/
def demoLayoutFn (_ : List ComponentMapping) : Except String GeneratedLayout :=
  .error "unused"

/-- C8 witness: on a concrete run where the second of two selected
mappings throws, the batch still yields two artifacts, the failed one
appears as the error-comment artifact, and the overall flag is false
because not every artifact succeeded. -/
theorem C8_per_component_recovery_witness :
    ∃ res, generateCode (some ⟨"react", false⟩) demoGenFn demoLayoutFn
        demoMappings demoRequest = .ok res ∧
      res.components.length = (selectedMappings demoMappings demoRequest).length ∧
      ({ id := "bad2", name := "Card",
         code := "// Error generating code: " ++ "boom",
         language := getLanguageFromFramework (some ⟨"react", false⟩),
         success := false, error := some "boom" } : GeneratedComponent) ∈ res.components := by
  refine ⟨_, rfl, ?_, ?_⟩
  · exact (C8_per_component_recovery (some ⟨"react", false⟩) demoGenFn demoLayoutFn
      demoMappings demoRequest _ rfl).1
  · refine (C8_per_component_recovery (some ⟨"react", false⟩) demoGenFn demoLayoutFn
      demoMappings demoRequest _ rfl).2.1 ⟨"bad2", "Card"⟩ ?_ "boom" ?_
    · decide
    · rfl

/-- A lone `TEXT` node with font size 30 (non-standard for the code's
set). -/
def size30Node : FigmaNode :=
  ⟨"t2", "Txt", "TEXT", none, 0, [], { fontSize := some 30 }⟩

/-- C6 witness: on the size-30 design the analyzer emits the info issue,
and its suggestion is the nearest standard size. -/
theorem C6_nonstandard_font_size_issues_witness :
    nonStandardIssue (30, ["t2"]) ∈ validateTypography [size30Node] ∧
      (nonStandardIssue (30, ["t2"])).suggestion =
        some (findNearestStandardSize 30) := by
  have hmem : nonStandardIssue (30, ["t2"]) ∈ validateTypography [size30Node] := by
    rw [(rfl : validateTypography [size30Node] = [nonStandardIssue (30, ["t2"])])]
    exact List.mem_singleton_self _
  exact ⟨hmem,
    (C6_nonstandard_font_size_issues [size30Node]).2 _ hmem 30 rfl⟩
